import Mathlib

/-!
Verification of the pipeline orchestration and structured-output extraction
layer of the python_tele_fab repository.  Python functions from
`backend/services` and `backend/server.py` are shallowly embedded as Lean
functions over `List Char` texts; fallible code is modelled with `Option`
(`none` = the Python code raises).  Library calls (`json.loads`, `str.format`,
regular expressions) are modelled by executable Lean functions that follow the
documented semantics of those libraries on the fragment the repository uses.
-/

set_option autoImplicit false
set_option maxRecDepth 4096

namespace TeleFab

/-- Texts are lists of characters. -/
abbrev Str := List Char

/-- Coerce a Lean string literal to the character-list representation. -/
def chars (s : String) : Str := s.data

/-- The open-brace character. -/
def obrace : Char := Char.ofNat 123

/-- The close-brace character. -/
def cbrace : Char := Char.ofNat 125

/-- The backquote character used by code fences. -/
def backquote : Char := Char.ofNat 96

/-- Python `str.strip()` whitespace class (space, tab, newline, CR, VT, FF). -/
def isPySpace (c : Char) : Bool :=
  c == ' ' || c == '\t' || c == '\n' || c == '\r' ||
  c == Char.ofNat 11 || c == Char.ofNat 12

/-- Python `str.strip()` on the left. -/
def stripLeft (s : Str) : Str := s.dropWhile isPySpace

/-- Python `str.strip()` on the right. -/
def stripRight (s : Str) : Str := (s.reverse.dropWhile isPySpace).reverse

/-- Python `str.strip()`. -/
def strip (s : Str) : Str := stripRight (stripLeft s)

/-- Python `dict` insertion: an existing key keeps its position and gets the
new value, a new key is appended at the end. -/
def dinsert {α : Type} (k : Str) (v : α) : List (Str × α) → List (Str × α)
  | [] => [(k, v)]
  | (k', v') :: rest =>
    if k' == k then (k', v) :: rest else (k', v') :: dinsert k v rest

/-- Python `dict.get`. -/
def dlookup {α : Type} (k : Str) : List (Str × α) → Option α
  | [] => none
  | (k', v') :: rest => if k' == k then some v' else dlookup k rest

/-! ## JSON values and a model of `json.loads`

JSON numbers are stored as a decimal mantissa and a power-of-ten scale
(`mantissa / 10 ^ scale`), which keeps equality structural; the repository's
claims only ever involve integer numbers.  `\uXXXX` string escapes are not
modelled (no claim exercises them). -/

inductive JVal where
  | null
  | bool (b : Bool)
  | num (mantissa : Int) (scale : Nat)
  | str (s : Str)
  | arr (xs : List JVal)
  | obj (kvs : List (Str × JVal))
deriving Repr

/-- JSON whitespace accepted by `json.loads` between tokens. -/
def isJsonWs (c : Char) : Bool :=
  c == ' ' || c == '\t' || c == '\n' || c == '\r'

/-- Skip JSON whitespace. -/
def jskip (s : Str) : Str := s.dropWhile isJsonWs

/-- Digits of a decimal literal to a natural number. -/
def digitsToNat (ds : Str) : Nat :=
  ds.foldl (fun n c => 10 * n + (c.toNat - 48)) 0

/-- Parse the body of a JSON string after the opening quote; returns the
decoded characters and the rest of the input after the closing quote. -/
def parseStrBody : Nat → Str → Option (Str × Str)
  | 0, _ => none
  | _, [] => none
  | fuel + 1, c :: rest =>
    if c == '"' then some ([], rest)
    else if c == '\\' then
      match rest with
      | [] => none
      | e :: rest2 =>
        let d? : Option Char :=
          if e == '"' then some '"'
          else if e == '\\' then some '\\'
          else if e == '/' then some '/'
          else if e == 'n' then some '\n'
          else if e == 't' then some '\t'
          else if e == 'r' then some '\r'
          else if e == 'b' then some (Char.ofNat 8)
          else if e == 'f' then some (Char.ofNat 12)
          else none
        match d? with
        | none => none
        | some d => (parseStrBody fuel rest2).map fun p => (d :: p.1, p.2)
    else if c.toNat < 32 then none
    else (parseStrBody fuel rest).map fun p => (c :: p.1, p.2)

/-- Split off a maximal run of decimal digits. -/
def spanDigits (s : Str) : Str × Str := (s.takeWhile Char.isDigit, s.dropWhile Char.isDigit)

/-- Parse a JSON number literal into mantissa and power-of-ten scale. -/
def parseNum (s : Str) : Option ((Int × Nat) × Str) := do
  let (neg, s1) :=
    match s with
    | c :: r => if c == '-' then (true, r) else (false, s)
    | [] => (false, s)
  let (ds, s2) := spanDigits s1
  if ds.isEmpty then none else
  let (fds, s3) :=
    match s2 with
    | c :: r =>
      if c == '.' then
        let (fd, r2) := spanDigits r
        (fd, r2)
      else ([], s2)
    | [] => ([], s2)
  if s2 ≠ s3 && fds.isEmpty then none else
  let mant0 : Nat := digitsToNat ds * 10 ^ fds.length + digitsToNat fds
  let scale0 : Nat := fds.length
  let (exp?, s4) :=
    match s3 with
    | c :: r =>
      if c == 'e' || c == 'E' then
        let (esign, r1) :=
          match r with
          | d :: r2 => if d == '-' then (true, r2) else if d == '+' then (false, r2) else (false, r)
          | [] => (false, r)
        let (eds, r3) := spanDigits r1
        if eds.isEmpty then (none, s3) else (some (esign, digitsToNat eds), r3)
      else (none, s3)
    | [] => (none, s3)
  match s3, exp? with
  | _ :: _, none =>
    if (s3.headD ' ') == 'e' || (s3.headD ' ') == 'E' then none
    else
      let m : Int := if neg then -(mant0 : Int) else (mant0 : Int)
      some ((m, scale0), s4)
  | _, _ =>
    let (scale1, mant1) : Nat × Nat :=
      match exp? with
      | none => (scale0, mant0)
      | some (esign, e) =>
        if esign then (scale0 + e, mant0)
        else if e ≥ scale0 then (0, mant0 * 10 ^ (e - scale0))
        else (scale0 - e, mant0)
    let m : Int := if neg then -(mant1 : Int) else (mant1 : Int)
    some ((m, scale1), s4)

mutual

/-- Parse one JSON value. -/
def parseVal : Nat → Str → Option (JVal × Str)
  | 0, _ => none
  | fuel + 1, s =>
    match s with
    | [] => none
    | c :: rest =>
      if c == '"' then
        (parseStrBody (fuel + 1) rest).map fun p => (JVal.str p.1, p.2)
      else if c == obrace then
        parseObjBody fuel (jskip rest) []
      else if c == '[' then
        parseArrBody fuel (jskip rest) []
      else if c == 't' then
        if rest.take 3 == chars ("rue") then some (JVal.bool true, rest.drop 3) else none
      else if c == 'f' then
        if rest.take 4 == chars ("alse") then some (JVal.bool false, rest.drop 4) else none
      else if c == 'n' then
        if rest.take 3 == chars ("ull") then some (JVal.null, rest.drop 3) else none
      else if c == '-' || c.isDigit then
        (parseNum s).map fun p => (JVal.num p.1.1 p.1.2, p.2)
      else none

/-- Parse the members of a JSON object after the opening brace (whitespace
already skipped); `acc` holds the members parsed so far. -/
def parseObjBody : Nat → Str → List (Str × JVal) → Option (JVal × Str)
  | 0, _, _ => none
  | fuel + 1, s, acc =>
    match s with
    | [] => none
    | c :: rest =>
      if c == cbrace then
        if acc.isEmpty then some (JVal.obj [], rest) else none
      else if c == '"' then do
        let (k, s1) ← parseStrBody (fuel + 1) rest
        match jskip s1 with
        | ':' :: s2 => do
          let (v, s3) ← parseVal fuel (jskip s2)
          match jskip s3 with
          | ',' :: s4 =>
            match jskip s4 with
            | '"' :: s5 => parseObjBody fuel ('"' :: s5) (dinsert k v acc)
            | _ => none
          | c2 :: s4 =>
            if c2 == cbrace then some (JVal.obj (dinsert k v acc), s4) else none
          | [] => none
        | _ => none
      else none

/-- Parse the elements of a JSON array after the opening bracket. -/
def parseArrBody : Nat → Str → List JVal → Option (JVal × Str)
  | 0, _, _ => none
  | fuel + 1, s, acc =>
    match s with
    | [] => none
    | c :: rest =>
      if c == ']' then
        if acc.isEmpty then some (JVal.arr [], rest) else none
      else do
        let (v, s1) ← parseVal fuel s
        match jskip s1 with
        | ',' :: s2 => parseArrBody fuel (jskip s2) (acc ++ [v])
        | ']' :: s2 => some (JVal.arr (acc ++ [v]), s2)
        | _ => none

end

/-- Model of `json.loads`: parse one value surrounded by whitespace, reject
trailing content (`none` = `json.loads` raises). -/
def jsonLoads (s : Str) : Option JVal :=
  match parseVal (s.length + 1) (jskip s) with
  | some (v, rest) => if (jskip rest).isEmpty then some v else none
  | none => none

/-! ## `_safe_json_loads` (coverage.py lines 12-24, plugin_builder.py lines 77-91)

The fallback scans the text with `re.finditer` on the greedy pattern
`\x7b[\s\S]*\x7d`.  Because the quantifier is greedy, the regex engine
produces at most one match: it starts at the first open brace that is
followed by some close brace, and ends at the last close brace of the whole
text; after that match no further close brace remains, so `finditer` stops.
`jsonBlocks` is that match list. -/

/-- Index of the first occurrence of `c`, if any. -/
def firstIdx (c : Char) (s : Str) : Option Nat := s.findIdx? (· == c)

/-- Index of the last occurrence of `c`, if any. -/
def lastIdx (c : Char) (s : Str) : Option Nat :=
  match (s.reverse.findIdx? (· == c)) with
  | some i => some (s.length - 1 - i)
  | none => none

/-- The match list of `re.finditer` on the greedy brace pattern. -/
def jsonBlocks (s : Str) : List Str :=
  match firstIdx obrace s, lastIdx cbrace s with
  | some p, some q => if p < q then [(s.drop p).take (q - p + 1)] else []
  | _, _ => []

/-- Stable insertion used by `blocks.sort(key=len, reverse=True)`. -/
def insertByLenDesc (x : Str) : List Str → List Str
  | [] => [x]
  | y :: ys => if y.length < x.length then x :: y :: ys else y :: insertByLenDesc x ys

/-- `list.sort(key=len, reverse=True)`: stable sort by decreasing length. -/
def sortByLenDesc (xs : List Str) : List Str := xs.foldr insertByLenDesc []

/-- `_safe_json_loads`: whole-text parse first; on failure try each regex
block in decreasing length order and return the first that parses; on total
failure return the empty object.  Total by construction (never raises). -/
def safe_json_loads (text : Str) : JVal :=
  match jsonLoads text with
  | some v => v
  | none =>
    match (sortByLenDesc (jsonBlocks text)).findSome? jsonLoads with
    | some v => v
    | none => JVal.obj []

/-! ## Template rendering

`format_messages` (utils.py lines 26-31) substitutes with `str.format`, which
raises `KeyError` on a placeholder absent from the variable map and
`ValueError` on stray brace characters.  `_safe_format_messages`
(plugin_builder.py lines 41-58) substitutes with `format_map(_SafeDict(...))`
whose `__missing__` re-inserts the literal placeholder, and passes the content
through unchanged if formatting raises.  The model covers plain `\x7bname\x7d`
fields; format specifications (`:`/`!` suffixes) are not modelled because no
template in the repository and no claim uses them. -/

/-- The name of a replacement field: the characters before the first brace. -/
def fieldName (s : Str) : Str := s.takeWhile fun d => !(d == cbrace) && !(d == obrace)

/-- The text after a replacement field's closing brace. -/
def fieldRest (s : Str) : Str := (s.drop (fieldName s).length).tail

/-- Whether a replacement field is well formed: its name is followed by a
closing brace (a nested open brace or a missing closing brace is an error). -/
def fieldOk (s : Str) : Bool :=
  match s.drop (fieldName s).length with
  | d :: _ => d == cbrace
  | [] => false

theorem fieldRest_length (s : Str) : (fieldRest s).length ≤ s.length - 1 := by
  simp [fieldRest]
  omega

/-- Core of `str.format` / `str.format_map`: `safe = false` models plain
`format` (missing key raises, i.e. `none`); `safe = true` models
`format_map(_SafeDict(...))` (missing key keeps the literal placeholder).
In both modes malformed braces give `none` (ValueError / IndexError). -/
def fmtCore (safe : Bool) (vars : List (Str × Str)) : Str → Option Str
  | [] => some []
  | [c] => if c == obrace || c == cbrace then none else some [c]
  | c :: c2 :: rest =>
    if c == obrace then
      if c2 == obrace then (fmtCore safe vars rest).map (obrace :: ·)
      else if fieldOk (c2 :: rest) then
        let name := fieldName (c2 :: rest)
        if name.isEmpty then none
        else
          match dlookup name vars with
          | some v => (fmtCore safe vars (fieldRest (c2 :: rest))).map (v ++ ·)
          | none =>
            if safe then
              (fmtCore safe vars (fieldRest (c2 :: rest))).map fun t =>
                obrace :: (name ++ cbrace :: t)
            else none
      else none
    else if c == cbrace then
      if c2 == cbrace then (fmtCore safe vars rest).map (cbrace :: ·) else none
    else (fmtCore safe vars (c2 :: rest)).map (c :: ·)
termination_by s => s.length
decreasing_by
  all_goals simp_wf
  all_goals try (have h9 := fieldRest_length (c2 :: rest); simp at h9)
  all_goals omega

/-- A template message: a role and a content text. -/
abbrev TMsg := Str × Str

/-- `format_messages` (utils.py): formats every content with `str.format`;
`none` models the call raising (`KeyError`/`ValueError`). -/
def format_messages (template_msgs : List TMsg) (vars : List (Str × Str)) :
    Option (List TMsg) :=
  template_msgs.mapM fun m => (fmtCore false vars m.2).map fun c => (m.1, c)

/-- `_safe_format_messages` (plugin_builder.py): formats with the safe dict
and passes the content through unchanged on any formatting error; total. -/
def safe_format_messages (template_msgs : List TMsg) (vars : List (Str × Str)) :
    List TMsg :=
  template_msgs.map fun m =>
    match fmtCore true vars m.2 with
    | some c => (m.1, c)
    | none => (m.1, m.2)

/-! ## `_split_sections` (plugin_builder.py lines 118-140)

The two MULTILINE regexes (`_FILE_SPLIT_PATTERN` and `_CODE_FENCE`) anchor on
line boundaries, so they are modelled line by line: the text is split at
newlines, fence lines are blanked (as `_CODE_FENCE.sub("")` leaves their
newline in place), marker lines are recognised by `markerName?`, and a
section's body is the stripped join of the lines strictly between markers
(the `\s*` padding the patterns may absorb across line breaks is whitespace
that `strip` removes either way). -/

/-- Split a text into lines at newline characters. -/
def linesOf : Str → List Str
  | [] => [[]]
  | c :: rest =>
    if c == '\n' then [] :: linesOf rest
    else
      match linesOf rest with
      | l :: ls => (c :: l) :: ls
      | [] => [[c]]

/-- Rejoin lines with newlines (Python `"\n".join`). -/
def unlines : List Str → Str
  | [] => []
  | [l] => l
  | l :: l2 :: ls => l ++ '\n' :: unlines (l2 :: ls)

/-- A tag character of a code-fence language tag (`[a-zA-Z0-9_-]`). -/
def isTagChar (c : Char) : Bool := c.isAlphanum || c == '_' || c == '-'

/-- A line matching `_CODE_FENCE`: optional whitespace, three or more
backquotes, an optional language tag, optional whitespace. -/
def fenceLine (l : Str) : Bool :=
  let t := stripLeft l
  let bq := t.takeWhile (· == backquote)
  let u := t.drop bq.length
  let v := u.dropWhile isTagChar
  bq.length ≥ 3 && v.all isPySpace

/-- `_CODE_FENCE.sub("", s)` line by line: fence lines become empty lines. -/
def stripFences (ls : List Str) : List Str :=
  ls.map fun l => if fenceLine l then [] else l

/-- A line matching `_FILE_SPLIT_PATTERN` yields the (stripped) file name
between `FILE:` and the final `===` of the line. -/
def markerName? (l : Str) : Option Str :=
  let t := stripLeft l
  if t.take 3 == chars ("===") then
    let u := stripLeft (t.drop 3)
    if u.take 5 == chars ("FILE:") then
      let rest := u.drop 5
      let r1 := stripRight rest
      if r1.length ≥ 3 && r1.drop (r1.length - 3) == chars ("===") then
        some (strip (r1.take (r1.length - 3)))
      else none
    else none
  else none

/-- `finditer` of the marker pattern from line index `i`. -/
def markerScanFrom (i : Nat) : List Str → List (Nat × Str)
  | [] => []
  | l :: ls =>
    match markerName? l with
    | some n => (i, n) :: markerScanFrom (i + 1) ls
    | none => markerScanFrom (i + 1) ls

/-- `finditer` of the marker pattern: the marker lines with their indices. -/
def markerScan (ls : List Str) : List (Nat × Str) := markerScanFrom 0 ls

/-- A Python word character (`\w`, ASCII range as used here). -/
def isWordChar (c : Char) : Bool := c.isAlphanum || c == '_'

/-- Case-insensitive, word-bounded-on-the-right occurrence of `schema.lua`
at the head of the text. -/
def kwHere (s : Str) : Bool :=
  (s.take 10).map Char.toLower == chars ("schema.lua") &&
  (match s.drop 10 with
   | [] => true
   | c :: _ => !isWordChar c)

/-- `re.split(r'(?i)\bschema\.lua\b', s)`: the parts of `s` between
word-bounded case-insensitive occurrences of the keyword; `prev` is the
character just before the scan position (for the left word boundary).  The
fuel argument dominates the input length, so the last equation is never
reached when called through `schemaSplit`. -/
def schemaSplitGo : Nat → Option Char → Str → List Str
  | _, _, [] => [[]]
  | fuel + 1, prev, c :: rest =>
    let boundaryBefore :=
      match prev with
      | none => true
      | some p => !isWordChar p
    if boundaryBefore && kwHere (c :: rest) then
      [] :: schemaSplitGo fuel (some 'a') ((c :: rest).drop 10)
    else
      match schemaSplitGo fuel (some c) rest with
      | p :: ps => (c :: p) :: ps
      | [] => [[c]]
  | 0, _, s => [s]

/-- The keyword split of a whole text. -/
def schemaSplit (s : Str) : List Str := schemaSplitGo s.length none s

/-- Assemble the files dict from the marker list: each marker's body runs to
the next marker (or the end), is stripped, and is inserted in order. -/
def buildFiles (ls : List Str) : List (Nat × Str) → List (Str × Str) → List (Str × Str)
  | [], acc => acc
  | (i, n) :: rest, acc =>
    let endIdx :=
      match rest with
      | (j, _) :: _ => j
      | [] => ls.length
    let body := strip (unlines ((ls.take endIdx).drop (i + 1)))
    buildFiles ls rest (dinsert n body acc)

/-- `_split_sections`: empty input gives an empty dict; otherwise fence lines
are blanked, marker sections are collected; with no markers, the text is
split on the `schema.lua` keyword into two files, or kept whole as
`handler.lua`. -/
def split_sections (s : Str) : List (Str × Str) :=
  if s.isEmpty then []
  else
    let ls := stripFences (linesOf s)
    match markerScan ls with
    | [] =>
      let s' := unlines ls
      match schemaSplit s' with
      | p0 :: p1 :: _ => [(chars ("handler.lua"), strip p0), (chars ("schema.lua"), strip p1)]
      | _ => [(chars ("handler.lua"), strip s')]
    | ms => buildFiles ls ms []

/-! ## Archive extraction (apigee_analyzer.py)

A zip archive is modelled as the list of entries the `infolist` walk yields
together with an optional failure point: `failAfter = some k` means an
exception interrupts the walk after `k` entries have been processed (opening
a corrupt archive is `failAfter = some 0`).  `zf.read` raising for one member
is `read? = none` on that entry.  `raw.decode('utf-8', errors='ignore')`
never raises, so the encoding-fallback loop in `_safe_read` always succeeds
on its first iteration; it is modelled by `utf8DecodeIgnore`, which drops
undecodable byte sequences as the codec's ignore handler does. -/

/-- UTF-8 decoding with the `ignore` error handler: well-formed sequences are
decoded, bytes that cannot start or complete a valid sequence are dropped.
Each step consumes at least one byte, so the fuel (the byte count, supplied
by the wrapper below) never runs out. -/
def utf8DecodeGo : Nat → List Nat → Str
  | 0, _ => []
  | _, [] => []
  | fuel + 1, b :: rest =>
    if b < 128 then Char.ofNat b :: utf8DecodeGo fuel rest
    else if 194 ≤ b && b ≤ 223 then
      match rest with
      | c1 :: rest1 =>
        if 128 ≤ c1 && c1 ≤ 191 then
          Char.ofNat ((b - 194 + 2) * 64 + (c1 - 128)) :: utf8DecodeGo fuel rest1
        else utf8DecodeGo fuel rest
      | [] => []
    else if 224 ≤ b && b ≤ 239 then
      match rest with
      | c1 :: c2 :: rest2 =>
        let v := (b - 224) * 4096 + (c1 - 128) * 64 + (c2 - 128)
        if 128 ≤ c1 && c1 ≤ 191 && 128 ≤ c2 && c2 ≤ 191 &&
            2048 ≤ v && !(55296 ≤ v && v ≤ 57343) then
          Char.ofNat v :: utf8DecodeGo fuel rest2
        else utf8DecodeGo fuel rest
      | _ => utf8DecodeGo fuel rest
    else if 240 ≤ b && b ≤ 244 then
      match rest with
      | c1 :: c2 :: c3 :: rest3 =>
        let v := (b - 240) * 262144 + (c1 - 128) * 4096 + (c2 - 128) * 64 + (c3 - 128)
        if 128 ≤ c1 && c1 ≤ 191 && 128 ≤ c2 && c2 ≤ 191 && 128 ≤ c3 && c3 ≤ 191 &&
            65536 ≤ v && v ≤ 1114111 then
          Char.ofNat v :: utf8DecodeGo fuel rest3
        else utf8DecodeGo fuel rest
      | _ => utf8DecodeGo fuel rest
    else utf8DecodeGo fuel rest

/-- `bytes.decode('utf-8', errors='ignore')`. -/
def utf8DecodeIgnore (bs : List Nat) : Str := utf8DecodeGo bs.length bs

/-- One archive member as seen by the extraction walk. -/
structure ZEntry where
  filename : Str
  isDir : Bool
  read? : Option (List Nat)
deriving Repr

/-- An archive: the entries of the walk and an optional failure point. -/
structure Archive where
  entries : List ZEntry
  failAfter : Option Nat
deriving Repr

/-- The extracted bundle (`out` dict of `BundleExtractor.extract`). -/
structure Bundle where
  proxy_name : Str
  xml_files : List (Str × Str)
  code_files : List (Str × Str)
  config_files : List (Str × Str)
deriving Repr

/-- `_TEXT_EXTS`. -/
def TEXT_EXTS : List Str :=
  [chars (".xml"), chars (".json"), chars (".properties"), chars (".yml"),
   chars (".yaml"), chars (".txt"), chars (".md"), chars (".js"),
   chars (".py"), chars (".java"), chars (".ts")]

/-- `_CODE_EXTS`. -/
def CODE_EXTS : List Str := [chars (".js"), chars (".py"), chars (".java"), chars (".ts")]

/-- `_MAX_XML_LEN`. -/
def MAX_XML_LEN : Nat := 2000 * 50

/-- `_MAX_CODE_LEN`. -/
def MAX_CODE_LEN : Nat := 1500 * 50

/-- `_MAX_CFG_LEN`. -/
def MAX_CFG_LEN : Nat := 1500 * 30

/-- `_safe_read`: empty text when the member read raises, decoded text
otherwise (the first decode attempt, utf-8 with ignore, always succeeds). -/
def safe_read (e : ZEntry) : Str :=
  match e.read? with
  | none => []
  | some bs => utf8DecodeIgnore bs

/-- `_trim`. -/
def trim (s : Str) (max_len : Nat) : Str :=
  if s.isEmpty then [] else s.take max_len

/-- `Path(p).stem`: final path component without its extension. -/
def stem (p : Str) : Str :=
  let base := (p.splitOn '/').getLast?.getD []
  match (base.reverse.findIdx? (· == '.')) with
  | some i =>
    let dot := base.length - 1 - i
    if dot == 0 then base else base.take dot
  | none => base

/-- Process one archive entry into the bundle (one iteration of the
`infolist` loop). -/
def processEntry (out : Bundle) (e : ZEntry) : Bundle :=
  if e.isDir then out
  else
    let name := e.filename
    let lower := name.map Char.toLower
    if TEXT_EXTS.any (fun ext => ext.isSuffixOf lower) then
      let text := safe_read e
      if text.isEmpty then out
      else if (chars (".xml")).isSuffixOf lower then
        { out with xml_files := dinsert name (trim text MAX_XML_LEN) out.xml_files }
      else if CODE_EXTS.any (fun ext => ext.isSuffixOf lower) then
        { out with code_files := dinsert name (trim text MAX_CODE_LEN) out.code_files }
      else
        { out with config_files := dinsert name (trim text MAX_CFG_LEN) out.config_files }
    else out

/-- `BundleExtractor.extract`: walks the entries processed before any
failure point and returns the bundle collected so far; never raises. -/
def extract (zip_path : Str) (arch : Archive) : Bundle :=
  let out0 : Bundle := ⟨stem zip_path, [], [], []⟩
  let prefixLen :=
    match arch.failAfter with
    | some k => min k arch.entries.length
    | none => arch.entries.length
  (arch.entries.take prefixLen).foldl processEntry out0

/-! ## Message normalization (llm_provider.py lines 122-134) -/

/-- An incoming message entry: `role` and `content` keys, each possibly
missing (`m.get` returns `None`). -/
structure RawMsg where
  role? : Option Str
  content? : Option Str
deriving Repr

/-- `m.get("role") or "user"`: a missing or falsy (empty) role defaults. -/
def roleOf (r? : Option Str) : Str :=
  match r? with
  | none => chars ("user")
  | some r => if r.isEmpty then chars ("user") else r

/-- `LLMClient._normalize_messages`: a bare string becomes one user message;
entries whose content is `None` are dropped; a missing or empty role
defaults to `user`; an empty result is replaced by one `Hello` message. -/
def normalize_messages : Sum Str (List RawMsg) → List (Str × Str)
  | Sum.inl s => [(chars ("user"), s)]
  | Sum.inr ms =>
    let out := ms.filterMap fun m => m.content?.map fun c => (roleOf m.role?, c)
    if out.isEmpty then [(chars ("user"), chars ("Hello"))] else out

/-! ## Python value helpers shared by the plugin builder and coverage -/

/-- Python truthiness of a JSON value. -/
def truthy : JVal → Bool
  | .null => false
  | .bool b => b
  | .num m _ => m ≠ 0
  | .str s => !s.isEmpty
  | .arr xs => !xs.isEmpty
  | .obj kvs => !kvs.isEmpty

/-- Python `dict.setdefault`: keep an existing key, append a missing one. -/
def dsetdefault {α : Type} (k : Str) (v : α) (d : List (Str × α)) : List (Str × α) :=
  match dlookup k d with
  | some _ => d
  | none => d ++ [(k, v)]

/-- Decimal digits of an integer. -/
def intStr (i : Int) : Str :=
  if i < 0 then '-' :: Nat.toDigits 10 i.natAbs else Nat.toDigits 10 i.natAbs

/-- Rendering of a JSON number (claims only involve integer numbers; the
scaled form is rendered with an explicit scale marker). -/
def numStr (m : Int) (s : Nat) : Str :=
  if s == 0 then intStr m else intStr m ++ 'e' :: '-' :: Nat.toDigits 10 s

/-- `json.dumps` escaping of one string character. -/
def jstrEscape1 (c : Char) : Str :=
  if c == '"' then ['\\', '"']
  else if c == '\\' then ['\\', '\\']
  else if c == '\n' then ['\\', 'n']
  else if c == '\t' then ['\\', 't']
  else if c == '\r' then ['\\', 'r']
  else if c.toNat < 32 then
    ['\\', 'u', '0', '0', (Nat.toDigits 16 c.toNat).headD '0',
     (Nat.toDigits 16 c.toNat).getLastD '0']
  else [c]

mutual

/-- `json.dumps(..., ensure_ascii=False)` with the default separators. -/
def jdump : JVal → Str
  | .null => chars ("null")
  | .bool true => chars ("true")
  | .bool false => chars ("false")
  | .num m s => numStr m s
  | .str s => '"' :: (s.flatMap jstrEscape1 ++ ['"'])
  | .arr xs => '[' :: (jdumpList xs ++ [']'])
  | .obj kvs => obrace :: (jdumpObj kvs ++ [cbrace])

/-- Array elements, comma separated. -/
def jdumpList : List JVal → Str
  | [] => []
  | [x] => jdump x
  | x :: y :: rest => jdump x ++ chars (", ") ++ jdumpList (y :: rest)

/-- Object members, comma separated. -/
def jdumpObj : List (Str × JVal) → Str
  | [] => []
  | [(k, v)] => '"' :: (k.flatMap jstrEscape1 ++ ['"'] ++ chars (": ") ++ jdump v)
  | (k, v) :: p :: rest =>
    '"' :: (k.flatMap jstrEscape1 ++ ['"'] ++ chars (": ") ++ jdump v) ++
      chars (", ") ++ jdumpObj (p :: rest)

end

/-- Python `str()` of a JSON value as interpolated into f-strings; container
rendering is approximated by the JSON rendering (only its non-emptiness
matters to any claim). -/
def pyStr : JVal → Str
  | .null => chars ("None")
  | .bool true => chars ("True")
  | .bool false => chars ("False")
  | .num m s => numStr m s
  | .str s => s
  | v => jdump v

/-! ## Plugin builder (plugin_builder.py) -/

/-- A SPEC dictionary. -/
abbrev Spec := List (Str × JVal)

/-- `f"custom_{Path(filename).stem}" if filename else "custom_plugin"`. -/
def defaultPluginName (filename : Str) : Str :=
  if filename.isEmpty then chars ("custom_plugin") else chars ("custom_") ++ stem filename

/-- `_ensure_spec`: add the required keys with their defaults, then force a
truthy `plugin_name`. -/
def ensure_spec (spec : Spec) (filename : Str) : Spec :=
  let s1 := dsetdefault (chars ("plugin_name")) (JVal.arr []) spec
  let s2 := dsetdefault (chars ("summary")) (JVal.str (chars ("unknown"))) s1
  let s3 := dsetdefault (chars ("entry_points")) (JVal.arr []) s2
  let s4 := dsetdefault (chars ("config")) (JVal.obj []) s3
  if truthy ((dlookup (chars ("plugin_name")) s4).getD JVal.null) then s4
  else dinsert (chars ("plugin_name")) (JVal.str (defaultPluginName filename)) s4

/-- The Kong field type derived from a config value (`isinstance` checks). -/
def pyTypeName (v : JVal) : Str :=
  match v with
  | .bool _ => chars ("boolean")
  | .num _ _ => chars ("number")
  | _ => chars ("string")

/-- The `(spec.get("config") or \x7b\x7d).items()` step of
`_schema_from_spec`; `none` models the `AttributeError` on a truthy
non-dict. -/
def cfgItems (spec : Spec) : Option (List (Str × JVal)) :=
  match (dlookup (chars ("config")) spec).getD JVal.null with
  | .obj d => some d
  | v => if truthy v then none else some []

/-- The `spec.get("plugin_name","custom-plugin")` step of `_schema_from_spec`;
`none` models the `TypeError` of concatenating a non-string. -/
def pnForSchema (spec : Spec) : Option Str :=
  match dlookup (chars ("plugin_name")) spec with
  | none => some (chars ("custom-plugin"))
  | some (.str s) => some s
  | some _ => none

/-- `_schema_from_spec`: `none` models a raise — `.items()` on a truthy
non-dict `config`, or concatenating a non-string `plugin_name`. -/
def schema_from_spec (spec : Spec) : Option Str :=
  match cfgItems spec, pnForSchema spec with
  | some cfg, some pn =>
    let cfg_fields := JVal.arr (cfg.map fun p =>
      JVal.obj [(p.1, JVal.obj [(chars ("type"), JVal.str (pyTypeName p.2))])])
    some (chars ("return \x7b name = \"") ++ pn ++
      chars ("\", fields = \x7b \x7b config = \x7b type = \"record\", fields = ") ++
      jdump cfg_fields ++ chars (" \x7d \x7d \x7d \x7d"))
  | _, _ => none

/-- The hard-coded handler fallback of `generate_files`. -/
def handlerFallback : Str :=
  chars ("-- handler placeholder\nlocal kong = kong\nlocal Plugin = \x7b PRIORITY = 1000, VERSION = \"1.0.0\" \x7d\nfunction Plugin:access(conf) kong.log.debug(\"access phase\") end\nreturn Plugin")

/-- The README fallback of `generate_files`. -/
def readmeFallback (spec : Spec) : Str :=
  chars ("# ") ++ pyStr ((dlookup (chars ("plugin_name")) spec).getD (JVal.str (chars ("Custom Plugin")))) ++
    chars ("\n\nGenerated from Apigee callout.")

/-- One fallback-fill step of `generate_files`: `if not files.get(k):
files[k] = fallback` — the fallback value is an `Option` because computing it
(`_schema_from_spec`) may itself raise. -/
def fillKey (k : Str) (fb : Option Str) (d : List (Str × Str)) : Option (List (Str × Str)) :=
  if ((dlookup k d).getD []).isEmpty then fb.map fun s => dinsert k s d else some d

/-- `PluginBuilder.generate_files`: the backend call is the `llm` argument
(`Except` error = the call raising, absorbed into `out = ""`); missing or
empty `handler.lua` / `schema.lua` / `README.md` entries are filled with
fallbacks.  `none` models `_schema_from_spec` raising. -/
def generate_files (spec : Spec) (llm : Except Str Str) : Option (List (Str × Str)) := do
  let out := match llm with | .ok t => t | .error _ => []
  let files := split_sections out
  let f1 ← fillKey (chars ("handler.lua")) (some handlerFallback) files
  let f2 ← fillKey (chars ("schema.lua")) (schema_from_spec spec) f1
  fillKey (chars ("README.md")) (some (readmeFallback spec)) f2

/-- The fallback SPEC dictionaries of `distill_spec` (identical up to the
summary text). -/
def fallbackSpec (filename : Str) (summary : Str) : Spec :=
  [(chars ("plugin_name"), JVal.str (defaultPluginName filename)),
   (chars ("summary"), JVal.str summary),
   (chars ("entry_points"), JVal.arr [JVal.str (chars ("access")), JVal.str (chars ("response"))]),
   (chars ("io"), JVal.obj [(chars ("request"), JVal.obj []), (chars ("response"), JVal.obj [])]),
   (chars ("flows"), JVal.arr []),
   (chars ("errors"), JVal.arr []),
   (chars ("config"), JVal.obj []),
   (chars ("logging"), JVal.obj [(chars ("level"), JVal.str (chars ("info")))]),
   (chars ("dependencies"), JVal.arr []),
   (chars ("compat_notes"), JVal.arr [])]

/-- `PluginBuilder.distill_spec`: the backend call is the `llm` argument (an
`Except.error` carries the exception class name used in the fallback
summary); prompt construction (language inference, sanitization, truncation)
only shapes the backend input and is absorbed into `llm`. -/
def distill_spec (filename : Str) (llm : Except Str Str) : Spec :=
  match llm with
  | .error cls =>
    ensure_spec (fallbackSpec filename (chars ("LLM invocation failed: ") ++ cls)) filename
  | .ok text =>
    match safe_json_loads text with
    | .obj [] => ensure_spec (fallbackSpec filename (chars ("Behavior extracted from Apigee callout"))) filename
    | .obj d => ensure_spec d filename
    | _ => ensure_spec (fallbackSpec filename (chars ("Behavior extracted from Apigee callout"))) filename

/-! ## The per-script extension loop (server.py api_generate, lines 267-278) -/

/-- `"".join(f"=== FILE: \x7bk\x7d ===\n\x7bv\x7d\n" for k, v in files.items())`. -/
def serialize_files (files : List (Str × Str)) : Str :=
  (files.map fun p => chars ("=== FILE: ") ++ p.1 ++ chars (" ===\n") ++ p.2 ++ ['\n']).flatten

/-- `key = spec.get('plugin_name') or f"custom_{...stem}"`; `none` models the
unmodelled case of a truthy non-string key. -/
def derive_key (spec : Spec) (fname : Str) : Option Str :=
  match dlookup (chars ("plugin_name")) spec with
  | some v =>
    if truthy v then
      match v with
      | .str s => some s
      | _ => none
    else some (chars ("custom_") ++ stem fname)
  | none => some (chars ("custom_") ++ stem fname)

/-- The plugin-collection loop of `api_generate`: for each script file,
distill a SPEC, generate the plugin files, and store their serialization
under the derived key (`plugins_out[key] = ...`).  The two backend
round-trips per file are the `llmDistill` and `llmGen` arguments. -/
def api_generate_plugins (llmDistill llmGen : Str → Except Str Str)
    (code_files : List (Str × Str)) : Option (List (Str × Str)) :=
  code_files.foldlM (fun acc p => do
    let spec := distill_spec p.1 (llmDistill p.1)
    let files ← generate_files spec (llmGen p.1)
    let key ← derive_key spec p.1
    return dinsert key (serialize_files files) acc) []

/-! ## Coverage computation (coverage.py) -/

/-- Python `round` (banker's rounding), in exact rational arithmetic; the
Python code divides floats, which agrees on every magnitude the pipeline
produces. -/
def pyRound (q : ℚ) : ℤ :=
  let f := ⌊q⌋
  let r := q - (f : ℚ)
  if r < 1 / 2 then f
  else if 1 / 2 < r then f + 1
  else if f % 2 == 0 then f else f + 1

/-- The rational value of a stored JSON number. -/
def jnumQ (m : Int) (s : Nat) : ℚ := (m : ℚ) / (10 ^ s : ℚ)

/-- `len([m for m in mappings if m.get("kong_solution")])`; `none` models the
`AttributeError` raised when an element is not a dict. -/
def countMapped : List JVal → Option Nat
  | [] => some 0
  | .obj d :: rest =>
    (countMapped rest).map fun n =>
      n + (if truthy ((dlookup (chars ("kong_solution")) d).getD JVal.null) then 1 else 0)
  | _ => none

/-- `Coverage._extract_policies`; `none` models a raise (`.get` on a
non-dict analysis value or policy entry). -/
def extract_policies (analysis_json : JVal) : Option (List (JVal × JVal)) := do
  let d ← match analysis_json with | .obj d => some d | _ => none
  let items ←
    match (dlookup (chars ("policies_analysis")) d).getD JVal.null with
    | .arr xs => some xs
    | v => if truthy v then none else some []
  items.foldlM (fun acc p => do
    match p with
    | .obj pd =>
      let name := (dlookup (chars ("policy_name")) pd).getD JVal.null
      let ptype := (dlookup (chars ("policy_type")) pd).getD JVal.null
      let nameV := if truthy name then name else JVal.str []
      let ptypeV := if truthy ptype then ptype else JVal.str []
      return if truthy nameV then acc ++ [(nameV, ptypeV)] else acc
    | _ => none) []

/-- Set `key` to `[]` unless it already holds a list (the final loop of
`Coverage.compute`). -/
def ensureListKey (k : Str) (d : Spec) : Spec :=
  match dlookup k d with
  | some (.arr _) => d
  | _ => dinsert k (JVal.arr []) d

/-- `result if isinstance(result, dict) else \x7b\x7d`. -/
def covDict : JVal → Spec
  | .obj d => d
  | _ => []

/-- `isinstance(result["coverage_percentage"], (int, float))` on the looked-up
value (`bool` is a subclass of `int` in Python); `false` as well when the key
is missing. -/
def cpValNumeric : Option JVal → Bool
  | some (.num _ _) => true
  | some (.bool _) => true
  | _ => false

/-- `len([m for m in result.get("policy_mappings", []) if m.get("kong_solution")])
if isinstance(result.get("policy_mappings"), list) else 0`. -/
def mappedCount : Option JVal → Option Nat
  | some (.arr xs) => countMapped xs
  | _ => some 0

/-- `round(100 * (mapped / total))` on a truthy total: defined on numbers and
`True` (which Python divides as `1`); a truthy non-number raises (`none`). -/
def cpOfTotalVal (mapped : Nat) : JVal → Option JVal
  | .num m s => some (JVal.num (pyRound (100 * ((mapped : ℚ) / jnumQ m s))) 0)
  | .bool _ => some (JVal.num (pyRound (100 * (mapped : ℚ))) 0)
  | _ => none

/-- `round(100 * (mapped / result["total_policies"])) if result["total_policies"] else 0`. -/
def cpFromTotal (mapped : Nat) (totalV : JVal) : Option JVal :=
  if truthy totalV then cpOfTotalVal mapped totalV else some (JVal.num 0 0)

/-- `ba = result.get("bundling_analysis") or \x7b\x7d`; the subsequent
`ba.setdefault` raises on a truthy non-dict (`none`). -/
def baDict : JVal → Option Spec
  | .obj d => some d
  | v => if truthy v then none else some []

/-- The post-processing of the parsed backend output in `Coverage.compute`
(lines 76-93): default `total_policies`, recompute a missing or non-numeric
`coverage_percentage`, default the `bundling_analysis` keys, force the two
list keys.  `none` models a raise (division by a truthy non-number total,
a non-dict mapping entry, a truthy non-dict `bundling_analysis`). -/
def coverage_fallbacks (result0 : JVal) (policy_count : Nat) : Option Spec := do
  let r2 := dsetdefault (chars ("total_policies")) (JVal.num policy_count 0)
    (covDict result0)
  let r3 ←
    if cpValNumeric (dlookup (chars ("coverage_percentage")) r2) then pure r2
    else do
      let mapped ← mappedCount (dlookup (chars ("policy_mappings")) r2)
      let cp ← cpFromTotal mapped ((dlookup (chars ("total_policies")) r2).getD JVal.null)
      pure (dinsert (chars ("coverage_percentage")) cp r2)
  let ba ← baDict ((dlookup (chars ("bundling_analysis")) r3).getD JVal.null)
  let ba1 := dsetdefault (chars ("total_bundles")) (JVal.num 0 0) ba
  let ba2 := dsetdefault (chars ("bundled_policies_count")) (JVal.num 0 0) ba1
  let ba3 := dsetdefault (chars ("efficiency_gain")) (JVal.str (chars ("0%"))) ba2
  let r4 := dinsert (chars ("bundling_analysis")) (JVal.obj ba3) r3
  return ensureListKey (chars ("not_required_policies")) (ensureListKey (chars ("policy_mappings")) r4)

/-- `Coverage.compute`: parse the analysis, count its policies, and apply the
fallbacks to the parsed backend output (the backend round-trip is the `llm`
argument; the prompt-side rendering only shapes the backend input). -/
def coverage_compute (analysis_text : Str) (llm : Str) : Option Spec := do
  let policies ← extract_policies (safe_json_loads analysis_text)
  coverage_fallbacks (safe_json_loads llm) policies.length

/-! Spec-side formulation of the coverage recomputation (claim C6): the
percentage is `round(100 * mapped / totalItems)` with `mapped` the number of
mappings carrying a non-empty target solution, and `0` when `totalItems`
is `0`.  The well-typedness predicates below describe the shapes the claim
speaks about: mappings are objects whose `kong_solution` is absent or a
string, and `total_policies` is absent or a non-negative integer. -/

/-- A present, non-empty string target solution (spec side). -/
def solCounted : Option JVal → Bool
  | some (.str s) => !s.isEmpty
  | _ => false

/-- A mapping with a non-empty target solution (spec side). -/
def mappingCounted : JVal → Bool
  | .obj d => solCounted (dlookup (chars ("kong_solution")) d)
  | _ => false

/-- Number of mappings with a non-empty target solution (spec side). -/
def specMapped (xs : List JVal) : Nat := xs.countP (fun m => mappingCounted m)

/-- The spec's formula: `round(100 * mapped / totalItems)`, `0` when
`totalItems = 0`. -/
def specCoveragePct (xs : List JVal) (total : Nat) : ℤ :=
  if total = 0 then 0
  else pyRound (100 * ((specMapped xs : ℚ) / (total : ℚ)))

/-- A target-solution entry that is absent or a string. -/
def solWF : Option JVal → Bool
  | none => true
  | some (.str _) => true
  | _ => false

/-- A mapping entry that is an object whose `kong_solution` is absent or a
string. -/
def mappingWF : JVal → Bool
  | .obj d => solWF (dlookup (chars ("kong_solution")) d)
  | _ => false

/-- A `policy_mappings` entry that is absent or a list of well-typed
mappings. -/
def pmValOk : Option JVal → Bool
  | none => true
  | some (.arr xs) => xs.all (fun m => mappingWF m)
  | some _ => false

/-- The mapping list the claim counts over (absent means empty). -/
def pmList : Option JVal → List JVal
  | some (.arr xs) => xs
  | _ => []

/-- A mapping with a non-empty target solution (concrete C6 instance). -/
def c6Map1 : JVal :=
  JVal.obj [(chars ("kong_solution"), JVal.str (chars ("rate-limiting")))]

/-- A mapping with no target solution (concrete C6 instance). -/
def c6Map0 : JVal := JVal.obj []

/-- The claim's concrete instance: `total_policies = 10` and ten mappings of
which four carry a non-empty target solution. -/
def c6R : Spec :=
  [(chars ("total_policies"), JVal.num 10 0),
   (chars ("policy_mappings"),
     JVal.arr [c6Map1, c6Map1, c6Map1, c6Map1,
               c6Map0, c6Map0, c6Map0, c6Map0, c6Map0, c6Map0])]

/-! ## Config combiner (shared-flow-services.py lines 530-580)

`combine_configurations` parses its YAML inputs, merges at the dict level,
and dumps the result; it is modelled on the parsed documents (the YAML
round-trip is the identity on the structure the claims speak about).
`none` models the interior raising, which the Python code converts into the
textual-concatenation fallback. -/

/-- One iteration of the per-service loop, split on the service's
`plugins` value: a missing key gains an empty list, an existing list is
extended; `none` models the raise on a non-list value. -/
def combinePlugins (all : List JVal) (d : List (Str × JVal)) : Option JVal → Option JVal
  | none => some (JVal.obj (d ++ [(chars ("plugins"), JVal.arr all)]))
  | some (JVal.arr xs) => some (JVal.obj (dinsert (chars ("plugins")) (JVal.arr (xs ++ all)) d))
  | some _ => none

/-- One iteration of the per-service loop; `none` models the raise on a
non-dict service. -/
def combineService (all : List JVal) : JVal → Option JVal
  | JVal.obj d => combinePlugins all d (dlookup (chars ("plugins")) d)
  | _ => none

/-- The `services` phase of the combiner, split on the `services` value. -/
def combineServices (all : List JVal) (proxy : Spec) : Option JVal → Option Spec
  | none => some proxy
  | some (JVal.arr svcs) => do
    let svcs' ← svcs.mapM (combineService all)
    some (dinsert (chars ("services")) (JVal.arr svcs') proxy)
  | some _ => none

/-- The top-level `plugins` phase of the combiner. -/
def combineTopPlugins (all : List JVal) (p1 : Spec) : Option JVal → Option Spec
  | none => some (p1 ++ [(chars ("plugins"), JVal.arr all)])
  | some (JVal.arr xs) => some (dinsert (chars ("plugins")) (JVal.arr (xs ++ all)) p1)
  | some _ => none

/-- The provenance annotation written into `_comment`. -/
def provComment (proxy_analysis : Spec) (sf_analyses : List Spec) : Str :=
  chars ("Combined configuration: ") ++
    pyStr ((dlookup (chars ("proxy_name")) proxy_analysis).getD JVal.null) ++
    chars (" + ") ++ Nat.toDigits 10 sf_analyses.length ++ chars (" shared flow(s)")

def combine_configurations (proxy : Spec) (sfs : List Spec)
    (proxy_analysis : Spec) (sf_analyses : List Spec) : Option Spec := do
  let all ← sfs.foldlM (fun acc sf =>
      match dlookup (chars ("plugins")) sf with
      | none => some acc
      | some (JVal.arr xs) => some (acc ++ xs)
      | some _ => none) ([] : List JVal)
  let p1 ← combineServices all proxy (dlookup (chars ("services")) proxy)
  let p2 ← combineTopPlugins all p1 (dlookup (chars ("plugins")) p1)
  return dinsert (chars ("_comment"))
    (JVal.str (provComment proxy_analysis sf_analyses)) p2

/-! ## Dictionary lemmas -/

theorem dlookup_dinsert_self {α : Type} (k : Str) (v : α) (d : List (Str × α)) :
    dlookup k (dinsert k v d) = some v := by
  induction d with
  | nil => simp [dlookup, dinsert]
  | cons p rest ih =>
    by_cases h : p.1 == k
    · simp [dinsert, dlookup, h]
    · simp [dinsert, dlookup, h, ih]

theorem dlookup_dinsert_ne {α : Type} {k k' : Str} (h : ¬(k = k')) (v : α)
    (d : List (Str × α)) : dlookup k' (dinsert k v d) = dlookup k' d := by
  induction d with
  | nil => simp [dlookup, dinsert, h]
  | cons p rest ih =>
    by_cases hp : p.1 == k
    · have hp' : p.1 = k := by exact eq_of_beq hp
      simp [dinsert, dlookup, hp, hp', h]
    · simp [dinsert, dlookup, hp, ih]

theorem dlookup_append {α : Type} (k : Str) (d₁ d₂ : List (Str × α)) :
    dlookup k (d₁ ++ d₂) =
      match dlookup k d₁ with
      | some v => some v
      | none => dlookup k d₂ := by
  induction d₁ with
  | nil => simp [dlookup]
  | cons p rest ih =>
    by_cases hp : p.1 == k
    · simp [dlookup, hp]
    · simp [dlookup, hp, ih]

theorem dlookup_dsetdefault_ne {α : Type} {k k' : Str} (h : ¬(k = k')) (v : α)
    (d : List (Str × α)) : dlookup k' (dsetdefault k v d) = dlookup k' d := by
  unfold dsetdefault
  cases hl : dlookup k d with
  | some w => rfl
  | none =>
    rw [dlookup_append]
    cases hl' : dlookup k' d with
    | some w => rfl
    | none => simp [dlookup, h]

theorem dlookup_dsetdefault_self {α : Type} (k : Str) (v : α) (d : List (Str × α)) :
    dlookup k (dsetdefault k v d) = some ((dlookup k d).getD v) := by
  unfold dsetdefault
  cases hl : dlookup k d with
  | some w => simp [hl]
  | none =>
    rw [dlookup_append]
    simp [hl, dlookup]

theorem dinsert_self_of_lookup {α : Type} {k : Str} {v : α} {d : List (Str × α)}
    (h : dlookup k d = some v) : dinsert k v d = d := by
  induction d with
  | nil => simp [dlookup] at h
  | cons p rest ih =>
    obtain ⟨pk, pv⟩ := p
    by_cases hp : pk == k
    · have hp' : pk = k := eq_of_beq hp
      simp [dlookup, hp] at h
      simp [dinsert, hp, h]
    · simp [dlookup, hp] at h
      simp [dinsert, hp, ih h]

theorem dlookup_ensureListKey_ne {k k' : Str} (h : ¬(k = k')) (d : Spec) :
    dlookup k' (ensureListKey k d) = dlookup k' d := by
  unfold ensureListKey
  cases hl : dlookup k d with
  | some w => cases w <;> simp [dlookup_dinsert_ne h]
  | none => simp [dlookup_dinsert_ne h]

/-! ## Claim theorems -/

/-- C1: the claim states that on `'intro text \x7b"a":1\x7d more
\x7b"a":1,"b":2\x7d trailing'` the recovery returns the largest parseable
brace-delimited object `\x7b"a":1,"b":2\x7d`.  The code does not: the greedy
regex produces the single block spanning from the first open brace to the
last close brace, that block does not parse, and the function returns the
empty object — even though the largest parseable candidate exists and parses
(second and third conjuncts). -/
theorem claim_C1 :
    safe_json_loads (chars ("intro text \x7b\"a\":1\x7d more \x7b\"a\":1,\"b\":2\x7d trailing")) = JVal.obj [] ∧
    jsonLoads (chars ("\x7b\"a\":1,\"b\":2\x7d")) =
      some (JVal.obj [(chars ("a"), JVal.num 1 0), (chars ("b"), JVal.num 2 0)]) ∧
    jsonBlocks (chars ("intro text \x7b\"a\":1\x7d more \x7b\"a\":1,\"b\":2\x7d trailing")) =
      [chars ("\x7b\"a\":1\x7d more \x7b\"a\":1,\"b\":2\x7d")] :=
  ⟨rfl, rfl, rfl⟩

/-- C5 counterexample: normalization keeps an entry whose content is the
empty string (only `None` content is dropped), so a message with empty
content survives; and an unknown role (`wizard`) is passed through, not
defaulted to `user`. -/
theorem claim_C5_counterexample :
    normalize_messages (Sum.inr [⟨some (chars ("user")), some []⟩]) = [(chars ("user"), [])] ∧
    normalize_messages (Sum.inr [⟨some (chars ("wizard")), some (chars ("hi"))⟩]) =
      [(chars ("wizard"), chars ("hi"))] :=
  ⟨rfl, rfl⟩

/-- C5 amended: a bare string becomes exactly one user message; the result is
always non-empty (the `Hello` placeholder on empty); entries with missing
(`None`) content are dropped; a missing or empty role defaults to `user`
(empty-string content is kept and unknown roles are preserved, per the
counterexample). -/
theorem claim_C5_amended :
    (∀ s : Str, normalize_messages (Sum.inl s) = [(chars ("user"), s)]) ∧
    (∀ ms : List RawMsg, normalize_messages (Sum.inr ms) ≠ []) ∧
    (∀ (r : Option Str) (ms : List RawMsg),
      normalize_messages (Sum.inr (⟨r, none⟩ :: ms)) = normalize_messages (Sum.inr ms)) ∧
    (∀ (c : Str) (ms : List RawMsg), ∃ tl,
      normalize_messages (Sum.inr (⟨none, some c⟩ :: ms)) = (chars ("user"), c) :: tl) ∧
    (∀ (c : Str) (ms : List RawMsg), ∃ tl,
      normalize_messages (Sum.inr (⟨some [], some c⟩ :: ms)) = (chars ("user"), c) :: tl) := by
  refine ⟨fun s => rfl, fun ms => ?_, fun r ms => ?_, fun c ms => ?_, fun c ms => ?_⟩
  · simp only [normalize_messages]
    split
    · simp
    · rename_i h
      intro hc
      rw [hc] at h
      simp at h
  · simp [normalize_messages, List.filterMap_cons]
  · simp [normalize_messages, List.filterMap_cons, roleOf]
  · simp [normalize_messages, List.filterMap_cons, roleOf]

/-- C3 counterexample: the claim requires exactly one key on every input
with zero markers; the empty input yields zero keys, and a marker-free input
mentioning `schema.lua` yields two keys. -/
theorem claim_C3_counterexample :
    split_sections (chars ("")) = [] ∧
    (split_sections (chars ("see schema.lua here"))).map Prod.fst =
      [chars ("handler.lua"), chars ("schema.lua")] :=
  ⟨rfl, rfl⟩

/-- Whether `pat` occurs as a contiguous substring of the text. -/
def strContains (pat : Str) : Str → Bool
  | [] => pat.isEmpty
  | c :: rest => List.isPrefixOf pat (c :: rest) || strContains pat rest

/-- The extension loop run on two script files `a/x.js` and `b/x.js` whose
SPEC round-trip fails (so both fall back to the derived name `custom_x`)
and whose generation round-trip returns a per-file handler section. -/
def c8CollisionRun : Option (List (Str × Str)) :=
  api_generate_plugins (fun _ => Except.error (chars ("E")))
    (fun f => Except.ok (chars ("=== FILE: handler.lua ===\ncode of ") ++ f))
    [(chars ("a/x.js"), chars ("c1")), (chars ("b/x.js"), chars ("c2"))]

/-- C8: with two script files that derive the same plugin name (`a/x.js` and
`b/x.js` both derive `custom_x` through the fallback SPEC), the collected
map has a single entry holding the second file's output — the first file's
generated output is silently overwritten, contradicting the claim. -/
theorem claim_C8 :
    (c8CollisionRun.map fun d => (d.length, d.map Prod.fst)) = some (1, [chars ("custom_x")]) ∧
    ((c8CollisionRun.bind (dlookup (chars ("custom_x")))).map fun v =>
      (strContains (chars ("code of b/x.js")) v, strContains (chars ("code of a/x.js")) v)) =
      some (true, false) :=
  ⟨rfl, rfl⟩

/-- C10 counterexample: on a spec whose `config` entry is a truthy non-dict
value, `generate_files` raises (`.items()` on a string) instead of
returning the three files. -/
theorem claim_C10_counterexample :
    generate_files [(chars ("config"), JVal.str (chars ("oops")))] (Except.ok []) = none :=
  rfl

/-- The `config` entry of a spec is absent, falsy, or a mapping (so
`(spec.get("config") or \x7b\x7d).items()` cannot raise). -/
def configOk (spec : Spec) : Bool :=
  match (dlookup (chars ("config")) spec).getD JVal.null with
  | .obj _ => true
  | v => !truthy v

/-- The `plugin_name` entry of a spec is absent or a string (so the schema
string concatenation cannot raise). -/
def pluginNameOk (spec : Spec) : Bool :=
  match dlookup (chars ("plugin_name")) spec with
  | none => true
  | some (.str _) => true
  | some _ => false

theorem cfgItems_some {spec : Spec} (hc : configOk spec = true) :
    ∃ cfg, cfgItems spec = some cfg := by
  unfold configOk at hc
  unfold cfgItems
  set w := (dlookup (chars ("config")) spec).getD JVal.null with hw
  clear_value w
  cases w with
  | obj d => exact ⟨d, rfl⟩
  | null => exact ⟨[], by simp [truthy]⟩
  | bool b =>
    simp [truthy] at hc
    exact ⟨[], by simp [truthy, hc]⟩
  | num m s =>
    simp [truthy] at hc
    exact ⟨[], by simp [truthy, hc]⟩
  | str s =>
    simp [truthy] at hc
    exact ⟨[], by simp [truthy, hc]⟩
  | arr xs =>
    simp [truthy] at hc
    exact ⟨[], by simp [truthy, hc]⟩

theorem pnForSchema_some {spec : Spec} (hp : pluginNameOk spec = true) :
    ∃ pn, pnForSchema spec = some pn := by
  unfold pluginNameOk at hp
  unfold pnForSchema
  set w := dlookup (chars ("plugin_name")) spec with hw
  clear_value w
  rcases w with _ | v
  · exact ⟨_, rfl⟩
  · cases v <;> simp_all

theorem schema_from_spec_some {spec : Spec} (hc : configOk spec = true)
    (hp : pluginNameOk spec = true) :
    ∃ s, schema_from_spec spec = some s ∧ s ≠ [] := by
  obtain ⟨cfg, hcfg⟩ := cfgItems_some hc
  obtain ⟨pn, hpn⟩ := pnForSchema_some hp
  unfold schema_from_spec
  rw [hcfg, hpn]
  refine ⟨_, rfl, ?_⟩
  rw [show chars ("return \x7b name = \"") = 'r' :: chars ("eturn \x7b name = \"") from rfl]
  simp

theorem fillKey_fills {k : Str} {fb : Option Str} {s : Str} (d : List (Str × Str))
    (hfb : fb = some s) (hs : s ≠ []) :
    ∃ e, fillKey k fb d = some e ∧ ∃ v, dlookup k e = some v ∧ v ≠ [] := by
  unfold fillKey
  split
  · refine ⟨dinsert k s d, by rw [hfb]; rfl, s, dlookup_dinsert_self _ _ _, hs⟩
  · rename_i hne
    cases hl : dlookup k d with
    | none => rw [hl] at hne; simp at hne
    | some v =>
      rw [hl] at hne
      refine ⟨d, rfl, v, hl, fun hv => ?_⟩
      rw [hv] at hne
      simp at hne

theorem fillKey_preserves {k k' : Str} (h : ¬(k = k')) {fb : Option Str}
    {d e : List (Str × Str)} (he : fillKey k fb d = some e) :
    dlookup k' e = dlookup k' d := by
  unfold fillKey at he
  split at he
  · cases fb with
    | none => simp at he
    | some s =>
      simp at he
      rw [← he, dlookup_dinsert_ne h]
  · simp at he
    rw [he]


/-- C10 amended: for every spec whose `config` is absent, falsy or a mapping
and whose `plugin_name` is absent or a string, and every backend behavior
(raising, empty output, arbitrary text), `generate_files` returns a map with
non-empty entries for `handler.lua`, `schema.lua` and `README.md`. -/
theorem claim_C10_amended (spec : Spec) (llm : Except Str Str)
    (hc : configOk spec = true) (hp : pluginNameOk spec = true) :
    ∃ files, generate_files spec llm = some files ∧
      (∃ v, dlookup (chars ("handler.lua")) files = some v ∧ v ≠ []) ∧
      (∃ v, dlookup (chars ("schema.lua")) files = some v ∧ v ≠ []) ∧
      (∃ v, dlookup (chars ("README.md")) files = some v ∧ v ≠ []) := by
  obtain ⟨sch, hsch, hschne⟩ := schema_from_spec_some hc hp
  have hfb : handlerFallback ≠ [] := by
    rw [show handlerFallback = '-' :: chars ("- handler placeholder\nlocal kong = kong\nlocal Plugin = \x7b PRIORITY = 1000, VERSION = \"1.0.0\" \x7d\nfunction Plugin:access(conf) kong.log.debug(\"access phase\") end\nreturn Plugin") from rfl]
    simp
  have hrm : readmeFallback spec ≠ [] := by
    rw [show readmeFallback spec =
      '#' :: (chars (" ") ++ pyStr ((dlookup (chars ("plugin_name")) spec).getD (JVal.str (chars ("Custom Plugin")))) ++ chars ("\n\nGenerated from Apigee callout.")) from rfl]
    simp
  obtain ⟨f1, hf1, v1, hv1, hv1ne⟩ :=
    @fillKey_fills (chars ("handler.lua")) (some handlerFallback) _
      (split_sections (match llm with | .ok t => t | .error _ => [])) rfl hfb
  obtain ⟨f2, hf2, v2, hv2, hv2ne⟩ :=
    @fillKey_fills (chars ("schema.lua")) _ _ f1 hsch hschne
  obtain ⟨f3, hf3, v3, hv3, hv3ne⟩ :=
    @fillKey_fills (chars ("README.md")) (some (readmeFallback spec)) _ f2 rfl hrm
  refine ⟨f3, ?_, ⟨v1, ?_, hv1ne⟩, ⟨v2, ?_, hv2ne⟩, ⟨v3, hv3, hv3ne⟩⟩
  · simp [generate_files, hf1, hf2, hf3]
  · rw [fillKey_preserves (by decide) hf3, fillKey_preserves (by decide) hf2]
    exact hv1
  · rw [fillKey_preserves (by decide) hf3]
    exact hv2

/-- C10 witness: on the empty spec and an empty backend reply, the theorem's
hypotheses hold and `generate_files` succeeds. -/
theorem claim_C10_amended_witness :
    (generate_files [] (Except.ok [])).isSome = true := by
  obtain ⟨files, hf, _⟩ := claim_C10_amended [] (Except.ok []) rfl rfl
  rw [hf]
  rfl

/-- A text with no brace characters (copied verbatim by `str.format`). -/
def noBrace (s : Str) : Bool := s.all fun c => !(c == obrace) && !(c == cbrace)

theorem fmtCore_copy (safe : Bool) (vars : List (Str × Str)) (pre rest : Str)
    (h : noBrace pre = true) :
    fmtCore safe vars (pre ++ rest) = (fmtCore safe vars rest).map (pre ++ ·) := by
  induction pre with
  | nil =>
    simp
  | cons c pre' ih =>
    simp only [noBrace, List.all_cons, Bool.and_eq_true, Bool.not_eq_eq_eq_not,
      Bool.not_true] at h
    obtain ⟨⟨hc1, hc2⟩, h'⟩ := h
    have ih' := ih (by simpa [noBrace] using h')
    cases hpr : pre' ++ rest with
    | nil =>
      obtain ⟨hp, hr⟩ := List.append_eq_nil.mp hpr
      subst hp
      subst hr
      simp only [List.append_nil] at *
      simp only [fmtCore, hc1, hc2]
      rfl
    | cons d tail =>
      rw [List.cons_append, hpr]
      simp only [fmtCore, hc1, hc2, Bool.false_eq_true, if_false]
      rw [← hpr, ih']
      cases fmtCore safe vars rest <;> simp

theorem fieldName_append {name : Str} (post : Str) (h : noBrace name = true) :
    fieldName (name ++ cbrace :: post) = name := by
  induction name with
  | nil => simp [fieldName]
  | cons c name' ih =>
    simp only [noBrace, List.all_cons, Bool.and_eq_true, Bool.not_eq_eq_eq_not,
      Bool.not_true] at h
    obtain ⟨⟨hc1, hc2⟩, h'⟩ := h
    simp only [fieldName, List.cons_append, List.takeWhile_cons, hc1, hc2]
    simp only [Bool.not_false, Bool.and_self, if_true]
    have := ih (by simpa [noBrace] using h')
    simp only [fieldName] at this
    rw [this]

theorem fmtCore_field (vars : List (Str × Str)) (name post : Str)
    (hn : noBrace name = true) (hne : name ≠ []) (hlk : dlookup name vars = none) :
    fmtCore true vars (obrace :: (name ++ cbrace :: post)) =
      (fmtCore true vars post).map fun t => obrace :: (name ++ cbrace :: t) := by
  have hfn : fieldName (name ++ cbrace :: post) = name := fieldName_append post hn
  have hfr : fieldRest (name ++ cbrace :: post) = post := by
    simp only [fieldRest, hfn]
    rw [List.drop_left]
    rfl
  have hfo : fieldOk (name ++ cbrace :: post) = true := by
    simp only [fieldOk, hfn]
    rw [List.drop_left]
    rfl
  obtain ⟨n0, name', rfl⟩ : ∃ n0 name', name = n0 :: name' := by
    cases name with
    | nil => exact absurd rfl hne
    | cons a b => exact ⟨a, b, rfl⟩
  have hn0 : (n0 == obrace) = false := by
    simp only [noBrace, List.all_cons, Bool.and_eq_true, Bool.not_eq_eq_eq_not,
      Bool.not_true] at hn
    exact hn.1.1
  rw [show obrace :: ((n0 :: name') ++ cbrace :: post) =
    obrace :: n0 :: (name' ++ cbrace :: post) from rfl]
  simp only [fmtCore, beq_self_eq_true, if_true, hn0, Bool.false_eq_true, if_false]
  rw [show n0 :: (name' ++ cbrace :: post) = (n0 :: name') ++ cbrace :: post from rfl]
  simp only [hfo, hfn, hfr, hlk, if_true]
  simp [hne]

/-- C2 counterexample: `format_messages` (utils.py), one of the two renderers
the claim covers, raises `KeyError` on a template whose content references a
placeholder absent from the variable map. -/
theorem fmtCore_field_strict (vars : List (Str × Str)) (name post : Str)
    (hn : noBrace name = true) (hne : name ≠ []) (hlk : dlookup name vars = none) :
    fmtCore false vars (obrace :: (name ++ cbrace :: post)) = none := by
  have hfn : fieldName (name ++ cbrace :: post) = name := fieldName_append post hn
  have hfo : fieldOk (name ++ cbrace :: post) = true := by
    simp only [fieldOk, hfn]
    rw [List.drop_left]
    rfl
  obtain ⟨n0, name', rfl⟩ : ∃ n0 name', name = n0 :: name' := by
    cases name with
    | nil => exact absurd rfl hne
    | cons a b => exact ⟨a, b, rfl⟩
  have hn0 : (n0 == obrace) = false := by
    simp only [noBrace, List.all_cons, Bool.and_eq_true, Bool.not_eq_eq_eq_not,
      Bool.not_true] at hn
    exact hn.1.1
  rw [show obrace :: ((n0 :: name') ++ cbrace :: post) =
    obrace :: n0 :: (name' ++ cbrace :: post) from rfl]
  simp only [fmtCore, beq_self_eq_true, if_true, hn0, Bool.false_eq_true, if_false]
  rw [show n0 :: (name' ++ cbrace :: post) = (n0 :: name') ++ cbrace :: post from rfl]
  simp only [hfo, hfn, hlk, if_true]
  simp [hne]

theorem claim_C2_counterexample :
    format_messages [(chars ("user"), chars ("\x7bunknown_var\x7d"))] [] = none := by
  have h : fmtCore false [] (chars ("\x7bunknown_var\x7d")) = none := by
    rw [show chars ("\x7bunknown_var\x7d") =
      obrace :: (chars ("unknown_var") ++ cbrace :: []) from rfl]
    exact fmtCore_field_strict [] (chars ("unknown_var")) [] (by decide) (by decide) rfl
  simp [format_messages, List.mapM.loop, h]

/-- C2 amended: rendering through the plugin builder's
`_safe_format_messages` never raises: a placeholder absent from the variable
map is left as literal text (content unchanged), and content on which
formatting raises (stray braces) is passed through unchanged; plain
`format_messages` (utils.py), however, raises on an unknown placeholder (see
the counterexample). -/
theorem claim_C2_amended :
    (∀ (vars : List (Str × Str)) (role pre post name : Str),
      noBrace pre = true → noBrace post = true → name ≠ [] → noBrace name = true →
      dlookup name vars = none →
      safe_format_messages [(role, pre ++ obrace :: (name ++ cbrace :: post))] vars =
        [(role, pre ++ obrace :: (name ++ cbrace :: post))]) ∧
    (∀ (vars : List (Str × Str)) (role content : Str),
      fmtCore true vars content = none →
      safe_format_messages [(role, content)] vars = [(role, content)]) := by
  constructor
  · intro vars role pre post name hpre hpost hne hname hlk
    have hpostf : fmtCore true vars post = some post := by
      have h0 : fmtCore true vars ([] : Str) = some [] := by simp only [fmtCore]
      have hcp := fmtCore_copy true vars post [] hpost
      rw [List.append_nil] at hcp
      rw [hcp, h0]
      simp
    have h : fmtCore true vars (pre ++ obrace :: (name ++ cbrace :: post)) =
        some (pre ++ obrace :: (name ++ cbrace :: post)) := by
      rw [fmtCore_copy true vars pre _ hpre, fmtCore_field vars name post hname hne hlk,
        hpostf]
      rfl
    simp [safe_format_messages, h]
  · intro vars role content h
    simp [safe_format_messages, h]

/-- C2 witness: the theorem applied with `pre = "a "`, `name = "unknown_var"`,
empty `post` and an empty variable map, and with the brace-containing content
`"a \x7b b"` on which formatting raises. -/
theorem claim_C2_amended_witness :
    safe_format_messages
        [(chars ("user"), chars ("a ") ++ obrace :: (chars ("unknown_var") ++ cbrace :: []))] [] =
      [(chars ("user"), chars ("a ") ++ obrace :: (chars ("unknown_var") ++ cbrace :: []))] ∧
    safe_format_messages [(chars ("user"), chars ("a \x7b b"))] [] =
      [(chars ("user"), chars ("a \x7b b"))] := by
  constructor
  · exact claim_C2_amended.1 [] (chars ("user")) (chars ("a ")) [] (chars ("unknown_var"))
      (by decide) (by decide) (by decide) (by decide) rfl
  · refine claim_C2_amended.2 [] (chars ("user")) (chars ("a \x7b b")) ?_
    have h1 : fmtCore true [] (obrace :: ' ' :: ['b']) = none := by
      simp only [fmtCore]
      rfl
    rw [show chars ("a \x7b b") = chars ("a ") ++ (obrace :: ' ' :: ['b']) from rfl]
    rw [fmtCore_copy true [] (chars ("a ")) _ (by decide), h1]
    rfl

/-- A single-line text (no newline characters). -/
def noNL (s : Str) : Bool := s.all fun c => !(c == '\n')

theorem linesOf_noNL (s : Str) (h : noNL s = true) : linesOf s = [s] := by
  induction s with
  | nil => rfl
  | cons c rest ih =>
    simp only [noNL, List.all_cons, Bool.and_eq_true, Bool.not_eq_eq_eq_not,
      Bool.not_true] at h
    obtain ⟨hc, h'⟩ := h
    simp only [linesOf, hc, Bool.false_eq_true, if_false]
    rw [ih (by simpa [noNL] using h')]

theorem linesOf_append (xs ys : Str) (h : noNL xs = true) :
    linesOf (xs ++ '\n' :: ys) = xs :: linesOf ys := by
  induction xs with
  | nil => simp [linesOf]
  | cons c rest ih =>
    simp only [noNL, List.all_cons, Bool.and_eq_true, Bool.not_eq_eq_eq_not,
      Bool.not_true] at h
    obtain ⟨hc, h'⟩ := h
    simp only [List.cons_append, linesOf, hc, Bool.false_eq_true, if_false, List.append_eq]
    rw [ih (by simpa [noNL] using h')]

/-- C3 amended: (i) on a text made of the `x.lua` marker line, a body line,
the `y.md` marker line and a second body line (bodies being ordinary lines:
no markers, no fences, no newlines), the section map has exactly the two
keys with the stripped bodies; (ii) on any non-empty input with no marker
line and fewer than two keyword-split parts, the map has exactly the single
key `handler.lua` holding the whole stripped (fence-blanked) text. -/
theorem claim_C3_amended :
    (∀ b1 b2 : Str,
      noNL b1 = true → noNL b2 = true →
      markerName? b1 = none → markerName? b2 = none →
      fenceLine b1 = false → fenceLine b2 = false →
      split_sections (chars ("=== FILE: x.lua ===") ++ '\n' ::
          (b1 ++ '\n' :: (chars ("=== FILE: y.md ===") ++ '\n' :: b2))) =
        [(chars ("x.lua"), strip b1), (chars ("y.md"), strip b2)]) ∧
    (∀ s : Str, s ≠ [] →
      markerScan (stripFences (linesOf s)) = [] →
      (schemaSplit (unlines (stripFences (linesOf s)))).length < 2 →
      split_sections s = [(chars ("handler.lua"), strip (unlines (stripFences (linesOf s))))]) := by
  constructor
  · intro b1 b2 hnl1 hnl2 hm1 hm2 hf1 hf2
    have hlines : linesOf (chars ("=== FILE: x.lua ===") ++ '\n' ::
        (b1 ++ '\n' :: (chars ("=== FILE: y.md ===") ++ '\n' :: b2))) =
        [chars ("=== FILE: x.lua ==="), b1, chars ("=== FILE: y.md ==="), b2] := by
      rw [linesOf_append _ _ (by decide), linesOf_append _ _ hnl1,
        linesOf_append _ _ (by decide), linesOf_noNL _ hnl2]
    have hstrip : stripFences [chars ("=== FILE: x.lua ==="), b1,
        chars ("=== FILE: y.md ==="), b2] =
        [chars ("=== FILE: x.lua ==="), b1, chars ("=== FILE: y.md ==="), b2] := by
      simp [stripFences, hf1, hf2,
        show fenceLine (chars ("=== FILE: x.lua ===")) = false from by decide,
        show fenceLine (chars ("=== FILE: y.md ===")) = false from by decide]
    have hms : markerScan [chars ("=== FILE: x.lua ==="), b1,
        chars ("=== FILE: y.md ==="), b2] =
        [(0, chars ("x.lua")), (2, chars ("y.md"))] := by
      simp [markerScan, markerScanFrom, hm1, hm2,
        show markerName? (chars ("=== FILE: x.lua ===")) = some (chars ("x.lua")) from by decide,
        show markerName? (chars ("=== FILE: y.md ===")) = some (chars ("y.md")) from by decide]
    have hie : (chars ("=== FILE: x.lua ===") ++ '\n' ::
        (b1 ++ '\n' :: (chars ("=== FILE: y.md ===") ++ '\n' :: b2))).isEmpty = false := rfl
    simp only [split_sections, hie, Bool.false_eq_true, if_false, hlines, hstrip, hms]
    simp [buildFiles, unlines, dinsert,
      show (chars ("x.lua") == chars ("y.md")) = false from by decide]
  · intro s hne hms hsp
    have hie : s.isEmpty = false := by
      cases s with
      | nil => exact absurd rfl hne
      | cons c rest => rfl
    simp only [split_sections, hie, Bool.false_eq_true, if_false, hms]
    rcases h2 : schemaSplit (unlines (stripFences (linesOf s))) with _ | ⟨p0, rest⟩
    · rfl
    · rcases rest with _ | ⟨p1, rest'⟩
      · rfl
      · rw [h2] at hsp
        simp at hsp
        omega

/-- C3 witness: the theorem applied with concrete one-line bodies `A` and
`B`, and with the marker-free keyword-free text `plain`. -/
theorem claim_C3_amended_witness :
    split_sections (chars ("=== FILE: x.lua ===") ++ '\n' ::
        (chars ("A") ++ '\n' :: (chars ("=== FILE: y.md ===") ++ '\n' :: chars ("B")))) =
      [(chars ("x.lua"), strip (chars ("A"))), (chars ("y.md"), strip (chars ("B")))] ∧
    split_sections (chars ("plain")) =
      [(chars ("handler.lua"), strip (unlines (stripFences (linesOf (chars ("plain"))))))] := by
  constructor
  · exact claim_C3_amended.1 (chars ("A")) (chars ("B")) (by decide) (by decide)
      (by decide) (by decide) (by decide) (by decide)
  · exact claim_C3_amended.2 (chars ("plain")) (by decide) (by decide) (by decide)

/-- Every value of the map is the trimmed decoding of some byte string. -/
def decodedMap (cap : Nat) (d : List (Str × Str)) : Prop :=
  ∀ name v, dlookup name d = some v → ∃ bs, v = trim (utf8DecodeIgnore bs) cap

/-- All three maps of a bundle hold only trimmed decoded text. -/
def decodedBundle (b : Bundle) : Prop :=
  decodedMap MAX_XML_LEN b.xml_files ∧ decodedMap MAX_CODE_LEN b.code_files ∧
    decodedMap MAX_CFG_LEN b.config_files

theorem decodedMap_dinsert {cap : Nat} {d : List (Str × Str)} (h : decodedMap cap d)
    (k : Str) (bs : List Nat) :
    decodedMap cap (dinsert k (trim (utf8DecodeIgnore bs) cap) d) := by
  intro name v hv
  by_cases hk : k = name
  · subst hk
    rw [dlookup_dinsert_self] at hv
    exact ⟨bs, (Option.some.injEq _ _).mp hv |>.symm⟩
  · rw [dlookup_dinsert_ne hk] at hv
    exact h _ _ hv

theorem processEntry_decoded {out : Bundle} {e : ZEntry} (h : decodedBundle out) :
    decodedBundle (processEntry out e) := by
  obtain ⟨hx, hc, hg⟩ := h
  unfold processEntry
  dsimp only
  split
  · exact ⟨hx, hc, hg⟩
  · split
    · cases hr : e.read? with
      | none =>
        simp only [safe_read, hr]
        split
        · exact ⟨hx, hc, hg⟩
        · rename_i hne
          simp at hne
      | some bs =>
        simp only [safe_read, hr]
        split
        · exact ⟨hx, hc, hg⟩
        · split
          · exact ⟨decodedMap_dinsert hx _ bs, hc, hg⟩
          · split
            · exact ⟨hx, decodedMap_dinsert hc _ bs, hg⟩
            · exact ⟨hx, hc, decodedMap_dinsert hg _ bs⟩
    · exact ⟨hx, hc, hg⟩

theorem foldl_decoded (es : List ZEntry) (out : Bundle) (h : decodedBundle out) :
    decodedBundle (es.foldl processEntry out) := by
  induction es generalizing out with
  | nil => exact h
  | cons e es ih => exact ih _ (processEntry_decoded h)

/-- Everything `extract` stores is trimmed decoded text. -/
theorem extract_decoded (path : Str) (arch : Archive) :
    decodedBundle (extract path arch) := by
  unfold extract
  apply foldl_decoded
  refine ⟨?_, ?_, ?_⟩ <;> intro name v hv <;> simp [dlookup] at hv

/-- C4: (i) an archive whose walk fails after `k` entries extracts exactly as
the truncated archive does (whatever was collected before the error is
returned, nothing raises); (ii) an archive yielding zero files produces the
valid empty bundle; (iii) every value in the three text maps is the trimmed
`utf-8`-with-ignore decoding of some entry's bytes — decoded text, never raw
bytes. -/
theorem claim_C4 :
    (∀ (path : Str) (entries : List ZEntry) (k : Nat),
      extract path ⟨entries, some k⟩ = extract path ⟨entries.take k, none⟩) ∧
    (∀ path : Str, extract path ⟨[], none⟩ = ⟨stem path, [], [], []⟩) ∧
    (∀ (path : Str) (arch : Archive),
      (∀ name v, dlookup name (extract path arch).xml_files = some v →
        ∃ bs, v = trim (utf8DecodeIgnore bs) MAX_XML_LEN) ∧
      (∀ name v, dlookup name (extract path arch).code_files = some v →
        ∃ bs, v = trim (utf8DecodeIgnore bs) MAX_CODE_LEN) ∧
      (∀ name v, dlookup name (extract path arch).config_files = some v →
        ∃ bs, v = trim (utf8DecodeIgnore bs) MAX_CFG_LEN)) := by
  refine ⟨?_, ?_, ?_⟩
  · intro path entries k
    unfold extract
    dsimp only
    rcases le_total k entries.length with h | h
    · rw [min_eq_left h, List.take_length]
    · rw [min_eq_right h, List.take_length, List.take_length, List.take_of_length_le h]
  · intro path
    rfl
  · intro path arch
    exact extract_decoded path arch

/-- C4 witness: a one-entry archive with xml bytes `<x>`, a failure point
after it, and the decoded lookup discharged concretely through the theorem. -/
theorem claim_C4_witness :
    extract (chars ("b.zip")) ⟨[⟨chars ("a.xml"), false, some [60, 120, 62]⟩], some 5⟩ =
      extract (chars ("b.zip")) ⟨[⟨chars ("a.xml"), false, some [60, 120, 62]⟩], none⟩ ∧
    extract (chars ("b.zip")) ⟨[], none⟩ = ⟨chars ("b"), [], [], []⟩ ∧
    (∃ bs, chars ("<x>") = trim (utf8DecodeIgnore bs) MAX_XML_LEN) := by
  refine ⟨?_, ?_, ?_⟩
  · have h := claim_C4.1 (chars ("b.zip")) [⟨chars ("a.xml"), false, some [60, 120, 62]⟩] 5
    simpa using h
  · exact claim_C4.2.1 (chars ("b.zip"))
  · exact (claim_C4.2.2 (chars ("b.zip"))
      ⟨[⟨chars ("a.xml"), false, some [60, 120, 62]⟩], none⟩).1 (chars ("a.xml"))
      (chars ("<x>")) (by rfl)

theorem utf8Go_ascii (b : Nat) (hb : b < 128) :
    ∀ n fuel : Nat, n ≤ fuel →
      utf8DecodeGo fuel (List.replicate n b) = List.replicate n (Char.ofNat b) := by
  intro n
  induction n with
  | zero =>
    intro fuel h
    cases fuel <;> rfl
  | succ m ih =>
    intro fuel h
    cases fuel with
    | zero => omega
    | succ f =>
      rw [List.replicate_succ]
      simp only [utf8DecodeGo]
      rw [if_pos hb, ih f (by omega), List.replicate_succ]

theorem utf8_ascii (n b : Nat) (hb : b < 128) :
    utf8DecodeIgnore (List.replicate n b) = List.replicate n (Char.ofNat b) := by
  unfold utf8DecodeIgnore
  rw [List.length_replicate]
  exact utf8Go_ascii b hb n n le_rfl

/-- The summed decoded-text size of one category map. -/
def totalLen (d : List (Str × Str)) : Nat := (d.map fun p => p.2.length).sum

/-- An archive with two xml entries, each decoding to exactly
`_MAX_XML_LEN` characters. -/
def c7Archive : Archive :=
  ⟨[⟨chars ("a.xml"), false, some (List.replicate MAX_XML_LEN 97)⟩,
    ⟨chars ("b.xml"), false, some (List.replicate MAX_XML_LEN 97)⟩], none⟩

theorem processEntry_xml_cap (out : Bundle) (nm : Str)
    (hsfx : (TEXT_EXTS.any fun ext => List.isSuffixOf ext (List.map Char.toLower nm)) = true)
    (hxml : List.isSuffixOf (chars (".xml")) (List.map Char.toLower nm) = true) :
    processEntry out ⟨nm, false, some (List.replicate MAX_XML_LEN 97)⟩ =
      { out with xml_files := dinsert nm (List.replicate MAX_XML_LEN 'a') out.xml_files } := by
  have hdec : safe_read ⟨nm, false, some (List.replicate MAX_XML_LEN 97)⟩ =
      List.replicate MAX_XML_LEN 'a' := by
    simp only [safe_read]
    exact utf8_ascii _ 97 (by norm_num)
  have hne : (List.replicate MAX_XML_LEN 'a').isEmpty = false := by
    rw [show MAX_XML_LEN = 99999 + 1 from by decide, List.replicate_succ]
    rfl
  have htrim : trim (List.replicate MAX_XML_LEN 'a') MAX_XML_LEN =
      List.replicate MAX_XML_LEN 'a' := by
    unfold trim
    rw [if_neg (by rw [hne]; exact fun hcontra => nomatch hcontra),
      List.take_replicate, min_self]
  unfold processEntry
  dsimp only
  rw [hdec]
  simp only [hsfx, hxml, hne, htrim, Bool.false_eq_true, if_false, if_true]

theorem c7_step1 :
    extract (chars ("z.zip")) c7Archive =
      processEntry (processEntry (⟨stem (chars ("z.zip")), [], [], []⟩ : Bundle)
        ⟨chars ("a.xml"), false, some (List.replicate MAX_XML_LEN 97)⟩)
        ⟨chars ("b.xml"), false, some (List.replicate MAX_XML_LEN 97)⟩ := by
  unfold extract c7Archive
  dsimp only
  rw [List.take_length]
  rw [List.foldl_cons, List.foldl_cons, List.foldl_nil]

theorem c7_step2 :
    processEntry (⟨stem (chars ("z.zip")), [], [], []⟩ : Bundle)
        ⟨chars ("a.xml"), false, some (List.replicate MAX_XML_LEN 97)⟩ =
      { (⟨stem (chars ("z.zip")), [], [], []⟩ : Bundle) with
        xml_files := dinsert (chars ("a.xml")) (List.replicate MAX_XML_LEN 'a')
          ([] : List (Str × Str)) } :=
  processEntry_xml_cap ⟨stem (chars ("z.zip")), [], [], []⟩ (chars ("a.xml"))
    (by decide) (by decide)

theorem c7_step3 :
    processEntry ({ (⟨stem (chars ("z.zip")), [], [], []⟩ : Bundle) with
        xml_files := dinsert (chars ("a.xml")) (List.replicate MAX_XML_LEN 'a')
          ([] : List (Str × Str)) })
        ⟨chars ("b.xml"), false, some (List.replicate MAX_XML_LEN 97)⟩ =
      { ({ (⟨stem (chars ("z.zip")), [], [], []⟩ : Bundle) with
        xml_files := dinsert (chars ("a.xml")) (List.replicate MAX_XML_LEN 'a')
          ([] : List (Str × Str)) }) with
        xml_files := dinsert (chars ("b.xml")) (List.replicate MAX_XML_LEN 'a')
          (dinsert (chars ("a.xml")) (List.replicate MAX_XML_LEN 'a')
            ([] : List (Str × Str))) } :=
  processEntry_xml_cap _ (chars ("b.xml")) (by decide) (by decide)

theorem c7_step4 :
    dinsert (chars ("b.xml")) (List.replicate MAX_XML_LEN 'a')
        (dinsert (chars ("a.xml")) (List.replicate MAX_XML_LEN 'a') ([] : List (Str × Str))) =
      [(chars ("a.xml"), List.replicate MAX_XML_LEN 'a'),
       (chars ("b.xml"), List.replicate MAX_XML_LEN 'a')] := by
  simp [dinsert, show (chars ("a.xml") == chars ("b.xml")) = false from by decide]

theorem c7_xml_files :
    (extract (chars ("z.zip")) c7Archive).xml_files =
      [(chars ("a.xml"), List.replicate MAX_XML_LEN 'a'),
       (chars ("b.xml"), List.replicate MAX_XML_LEN 'a')] :=
  Eq.trans
    (congrArg Bundle.xml_files
      (Eq.trans c7_step1
        (Eq.trans
          (congrArg
            (fun o => processEntry o
              ⟨chars ("b.xml"), false, some (List.replicate MAX_XML_LEN 97)⟩)
            c7_step2)
          c7_step3)))
    c7_step4

/-- C7 counterexample: an archive with two maximal xml files accumulates
twice the per-category cap in the xml map — the per-category total is not
bounded by the cap. -/
theorem claim_C7_counterexample :
    totalLen ((extract (chars ("z.zip")) c7Archive).xml_files) = 2 * MAX_XML_LEN ∧
    MAX_XML_LEN < totalLen ((extract (chars ("z.zip")) c7Archive).xml_files) := by
  rw [c7_xml_files]
  have htot : totalLen [(chars ("a.xml"), List.replicate MAX_XML_LEN 'a'),
      (chars ("b.xml"), List.replicate MAX_XML_LEN 'a')] = 2 * MAX_XML_LEN := by
    simp only [totalLen, List.map_cons, List.map_nil, List.length_replicate,
      List.sum_cons, List.sum_nil]
    omega
  have hpos : 0 < MAX_XML_LEN := by norm_num [MAX_XML_LEN]
  exact ⟨htot, by rw [htot]; omega⟩

theorem trim_length_le (s : Str) (cap : Nat) : (trim s cap).length ≤ cap := by
  unfold trim
  split
  · simp
  · rw [List.length_take]
    exact min_le_left _ _

/-- C7 amended: each stored file text is individually bounded by its
category's cap (truncation is per entry, silent, and no entry is rejected
for size); the per-category total is not bounded by the cap — see the
counterexample. -/
theorem claim_C7_amended (path : Str) (arch : Archive) :
    (∀ name v, dlookup name (extract path arch).xml_files = some v →
      v.length ≤ MAX_XML_LEN) ∧
    (∀ name v, dlookup name (extract path arch).code_files = some v →
      v.length ≤ MAX_CODE_LEN) ∧
    (∀ name v, dlookup name (extract path arch).config_files = some v →
      v.length ≤ MAX_CFG_LEN) := by
  obtain ⟨hx, hc, hg⟩ := extract_decoded path arch
  refine ⟨fun name v hv => ?_, fun name v hv => ?_, fun name v hv => ?_⟩
  · obtain ⟨bs, rfl⟩ := hx name v hv
    exact trim_length_le _ _
  · obtain ⟨bs, rfl⟩ := hc name v hv
    exact trim_length_le _ _
  · obtain ⟨bs, rfl⟩ := hg name v hv
    exact trim_length_le _ _

/-- C7 witness: the bound applied to a concrete one-entry archive. -/
theorem claim_C7_amended_witness :
    (chars ("<x>")).length ≤ MAX_XML_LEN :=
  (claim_C7_amended (chars ("b.zip"))
    ⟨[⟨chars ("a.xml"), false, some [60, 120, 62]⟩], none⟩).1
    (chars ("a.xml")) (chars ("<x>")) rfl

/-- The primary configuration of the C9 counterexample: one service, no
`plugins` key anywhere. -/
def c9Primary : Spec :=
  [(chars ("services"), JVal.arr [JVal.obj [(chars ("name"), JVal.str (chars ("s")))]])]

/-- C9 counterexample: combining a primary with an empty fragment list is
not structurally equivalent to the primary modulo the provenance
annotation — a `plugins: []` entry is inserted at top level (and into each
service) where it was absent. -/
theorem claim_C9_counterexample :
    dlookup (chars ("plugins")) c9Primary = none ∧
    (combine_configurations c9Primary [] [] []).bind (dlookup (chars ("plugins"))) =
      some (JVal.arr []) ∧
    (combine_configurations c9Primary [] [] []).bind (dlookup (chars ("services"))) =
      some (JVal.arr [JVal.obj [(chars ("name"), JVal.str (chars ("s"))),
        (chars ("plugins"), JVal.arr [])]]) :=
  ⟨rfl, rfl, rfl⟩

/-- A `plugins` value that is present and list-valued. -/
def pluginsValOk : Option JVal → Bool
  | some (JVal.arr _) => true
  | _ => false

/-- A service entry that is a dict with a list-valued `plugins` entry. -/
def svcOk : JVal → Bool
  | JVal.obj d => pluginsValOk (dlookup (chars ("plugins")) d)
  | _ => false

/-- The `services` value is absent, or a list of services that all already
have their `plugins` lists. -/
def servicesValOk : Option JVal → Bool
  | none => true
  | some (JVal.arr svcs) => svcs.all svcOk
  | some _ => false

/-- Every service of the primary is a dict that already has a list-valued
`plugins` entry (so the combiner mutates nothing). -/
def servicesPluginsOk (proxy : Spec) : Bool :=
  servicesValOk (dlookup (chars ("services")) proxy)

theorem combineService_nil {sv : JVal} (h : svcOk sv = true) :
    combineService [] sv = some sv := by
  rcases sv with _ | b | ⟨m, sc⟩ | st | xs | d <;> simp [svcOk] at h
  simp only [combineService]
  rcases hl : dlookup (chars ("plugins")) d with _ | v
  · rw [hl] at h; simp [pluginsValOk] at h
  · rcases v with _ | b2 | ⟨m2, sc2⟩ | st2 | ys | d2 <;> rw [hl] at h <;>
      simp [pluginsValOk] at h
    simp only [combinePlugins]
    rw [List.append_nil, dinsert_self_of_lookup hl]

theorem mapM_combineService_nil (svcs : List JVal) (h : svcs.all svcOk = true) :
    svcs.mapM (combineService []) = some svcs := by
  induction svcs with
  | nil => rfl
  | cons sv rest ih =>
    rw [List.all_cons, Bool.and_eq_true] at h
    rw [List.mapM_cons, combineService_nil h.1, ih h.2]
    rfl

/-- C9 amended: if the primary already has a list-valued top-level
`plugins` entry and every service already has one, then combining with an
empty fragment list returns exactly the primary with the provenance
annotation set — structural equivalence modulo the annotation.  Otherwise
the combiner also inserts empty `plugins` collections (counterexample). -/
theorem claim_C9_amended (proxy : Spec) (pa : Spec) (sfa : List Spec)
    (hsv : servicesPluginsOk proxy = true)
    (hpl : ∃ xs, dlookup (chars ("plugins")) proxy = some (JVal.arr xs)) :
    combine_configurations proxy [] pa sfa =
      some (dinsert (chars ("_comment")) (JVal.str (provComment pa sfa)) proxy) := by
  obtain ⟨xs, hxs⟩ := hpl
  unfold servicesPluginsOk at hsv
  have hp1 : combineServices [] proxy (dlookup (chars ("services")) proxy) = some proxy := by
    rcases hsvc : dlookup (chars ("services")) proxy with _ | v
    · simp [combineServices]
    · rw [hsvc] at hsv
      rcases v with _ | b | ⟨m, sc⟩ | st | svcs | d <;> simp [servicesValOk] at hsv
      simp only [combineServices]
      rw [mapM_combineService_nil svcs (List.all_eq_true.mpr hsv)]
      simp [dinsert_self_of_lookup hsvc]
  have hp2 : combineTopPlugins [] proxy (dlookup (chars ("plugins")) proxy) = some proxy := by
    rw [hxs]
    simp only [combineTopPlugins]
    rw [List.append_nil, dinsert_self_of_lookup hxs]
  unfold combine_configurations
  simp only [List.foldlM_nil, Option.pure_def, Option.bind_eq_bind, Option.some_bind]
  rw [hp1]
  simp only [Option.some_bind]
  rw [hp2]
  rfl

/-- C9 witness: a primary that already has its `plugins` collections. -/
theorem claim_C9_amended_witness :
    combine_configurations
        [(chars ("plugins"), JVal.arr []),
         (chars ("services"), JVal.arr [JVal.obj [(chars ("plugins"), JVal.arr [])]])]
        [] [] [] =
      some (dinsert (chars ("_comment")) (JVal.str (provComment [] []))
        [(chars ("plugins"), JVal.arr []),
         (chars ("services"), JVal.arr [JVal.obj [(chars ("plugins"), JVal.arr [])]])]) :=
  claim_C9_amended
    [(chars ("plugins"), JVal.arr []),
     (chars ("services"), JVal.arr [JVal.obj [(chars ("plugins"), JVal.arr [])]])]
    [] [] (by decide) ⟨[], rfl⟩

/-- On a well-typed target-solution entry, Python truthiness of the looked-up
value is exactly "present and a non-empty string". -/
theorem solCounted_of_wf {v : Option JVal} (h : solWF v = true) :
    truthy (v.getD JVal.null) = solCounted v := by
  rcases v with _ | v
  · rfl
  · rcases v with _ | b | ⟨m, sc⟩ | s | xs | d <;> simp [solWF] at h
    rfl

set_option synthInstance.maxHeartbeats 1000000 in
/-- On a list of well-typed mappings, the code's count is the spec's count. -/
theorem countMapped_wf (xs : List JVal) (h : xs.all (fun m => mappingWF m) = true) :
    countMapped xs = some (specMapped xs) := by
  induction xs with
  | nil => rfl
  | cons x rest ih =>
    simp only [List.all_cons, Bool.and_eq_true] at h
    obtain ⟨hx, hrest⟩ := h
    rcases x with _ | b | ⟨m, sc⟩ | s | ys | d <;> simp [mappingWF] at hx
    rw [show countMapped (JVal.obj d :: rest) =
        (countMapped rest).map (fun n => n +
          (if truthy ((dlookup (chars ("kong_solution")) d).getD JVal.null)
            then 1 else 0)) from rfl,
      ih hrest]
    simp [specMapped, List.countP_cons, mappingCounted, solCounted_of_wf hx]

/-- On a well-typed `policy_mappings` entry, the guarded count succeeds and
equals the spec's count over the claim's mapping list. -/
theorem mappedCount_wf : ∀ {v : Option JVal}, pmValOk v = true →
    mappedCount v = some (specMapped (pmList v))
  | none, _ => rfl
  | some (.arr xs), h => by
    have hall : xs.all (fun m => mappingWF m) = true := by simpa [pmValOk] using h
    rw [show mappedCount (some (JVal.arr xs)) = countMapped xs from rfl,
      countMapped_wf xs hall]
    rfl
  | some .null, h => by simp [pmValOk] at h
  | some (.bool b), h => by simp [pmValOk] at h
  | some (.num m sc), h => by simp [pmValOk] at h
  | some (.str s), h => by simp [pmValOk] at h
  | some (.obj d), h => by simp [pmValOk] at h

/-- On an integer total the recomputed percentage is the spec's formula
(including the `0` fallback for a zero total). -/
theorem cpFromTotal_spec (xs : List JVal) (tot : Nat) :
    cpFromTotal (specMapped xs) (JVal.num (tot : Int) 0) =
      some (JVal.num (specCoveragePct xs tot) 0) := by
  unfold cpFromTotal specCoveragePct
  by_cases h : tot = 0
  · subst h
    simp [truthy]
  · rw [if_pos (show truthy (JVal.num (tot : Int) 0) = true by simp [truthy, h]),
      if_neg h]
    simp [cpOfTotalVal, jnumQ]

/-- The recomputation path of `coverage_fallbacks`: when `coverage_percentage`
is missing or non-numeric and the other fields are well shaped, the output
exists and carries the spec's percentage. -/
theorem cov_recompute (r : Spec) (pc tot : Nat)
    (hcp : cpValNumeric (dlookup (chars ("coverage_percentage")) r) = false)
    (hwf : pmValOk (dlookup (chars ("policy_mappings")) r) = true)
    (htot : dlookup (chars ("total_policies")) r = none ∧ tot = pc ∨
      dlookup (chars ("total_policies")) r = some (JVal.num (tot : Int) 0))
    (hba : (baDict ((dlookup (chars ("bundling_analysis")) r).getD JVal.null)).isSome
      = true) :
    ∃ out, coverage_fallbacks (JVal.obj r) pc = some out ∧
      dlookup (chars ("coverage_percentage")) out =
        some (JVal.num
          (specCoveragePct (pmList (dlookup (chars ("policy_mappings")) r)) tot) 0) := by
  obtain ⟨b, hb⟩ := Option.isSome_iff_exists.mp hba
  have h2cp : dlookup (chars ("coverage_percentage"))
      (dsetdefault (chars ("total_policies")) (JVal.num (pc : Int) 0) r) =
      dlookup (chars ("coverage_percentage")) r :=
    dlookup_dsetdefault_ne (by decide) _ r
  have h2pm : dlookup (chars ("policy_mappings"))
      (dsetdefault (chars ("total_policies")) (JVal.num (pc : Int) 0) r) =
      dlookup (chars ("policy_mappings")) r :=
    dlookup_dsetdefault_ne (by decide) _ r
  have h2ba : dlookup (chars ("bundling_analysis"))
      (dsetdefault (chars ("total_policies")) (JVal.num (pc : Int) 0) r) =
      dlookup (chars ("bundling_analysis")) r :=
    dlookup_dsetdefault_ne (by decide) _ r
  have htotV : (dlookup (chars ("total_policies"))
      (dsetdefault (chars ("total_policies")) (JVal.num (pc : Int) 0) r)).getD
        JVal.null = JVal.num (tot : Int) 0 := by
    rw [dlookup_dsetdefault_self]
    rcases htot with ⟨hl, htp⟩ | hl
    · rw [hl]; subst htp; rfl
    · rw [hl]; rfl
  unfold coverage_fallbacks
  simp only [covDict, Option.pure_def, Option.bind_eq_bind]
  rw [if_neg (show ¬(cpValNumeric (dlookup (chars ("coverage_percentage"))
      (dsetdefault (chars ("total_policies")) (JVal.num (pc : Int) 0) r)) = true) by
    simp [h2cp, hcp])]
  rw [h2pm, mappedCount_wf hwf]
  simp only [Option.some_bind]
  rw [htotV, cpFromTotal_spec]
  simp only [Option.some_bind]
  rw [dlookup_dinsert_ne
    (show ¬(chars ("coverage_percentage") = chars ("bundling_analysis")) by decide)]
  rw [h2ba, hb]
  simp only [Option.some_bind]
  refine ⟨_, rfl, ?_⟩
  rw [dlookup_ensureListKey_ne
    (show ¬(chars ("not_required_policies") = chars ("coverage_percentage")) by decide)]
  rw [dlookup_ensureListKey_ne
    (show ¬(chars ("policy_mappings") = chars ("coverage_percentage")) by decide)]
  rw [dlookup_dinsert_ne
    (show ¬(chars ("bundling_analysis") = chars ("coverage_percentage")) by decide)]
  exact dlookup_dinsert_self _ _ _

/-- C6: when the parsed backend output has no numeric `coverage_percentage`
(and its fields have the shapes the claim describes — mappings are objects
whose `kong_solution` is absent or a string, `total_policies` is absent or a
non-negative integer, `bundling_analysis` does not raise), `Coverage.compute`
recomputes the percentage deterministically as
`round(100 * mapped / totalItems)` — `mapped` counting the mappings with a
non-empty target solution — and `0` when `totalItems` is `0`; in particular,
`total_policies = 10` with four of ten mappings carrying a non-empty target
solution yields `40`. -/
theorem claim_C6 (r : Spec) (pc tot : Nat)
    (hcp : cpValNumeric (dlookup (chars ("coverage_percentage")) r) = false)
    (hwf : pmValOk (dlookup (chars ("policy_mappings")) r) = true)
    (htot : dlookup (chars ("total_policies")) r = none ∧ tot = pc ∨
      dlookup (chars ("total_policies")) r = some (JVal.num (tot : Int) 0))
    (hba : (baDict ((dlookup (chars ("bundling_analysis")) r).getD JVal.null)).isSome
      = true) :
    (∃ out, coverage_fallbacks (JVal.obj r) pc = some out ∧
        dlookup (chars ("coverage_percentage")) out =
          some (JVal.num
            (specCoveragePct (pmList (dlookup (chars ("policy_mappings")) r)) tot) 0)) ∧
      (coverage_fallbacks (JVal.obj c6R) 0).bind
          (dlookup (chars ("coverage_percentage"))) =
        some (JVal.num 40 0) := by
  refine ⟨cov_recompute r pc tot hcp hwf htot hba, ?_⟩
  obtain ⟨out, hout, hlook⟩ := cov_recompute c6R 0 10 rfl rfl (Or.inr rfl) rfl
  rw [hout, Option.some_bind, hlook]
  have h4 : specMapped (pmList (dlookup (chars ("policy_mappings")) c6R)) = 4 := rfl
  have h40 : specCoveragePct (pmList (dlookup (chars ("policy_mappings")) c6R)) 10
      = 40 := by
    unfold specCoveragePct
    rw [h4]
    norm_num [pyRound]
  rw [h40]

/-- C6 witness: the concrete instance — `total_policies = 10`, four of ten
mappings with a non-empty `kong_solution` — computes the percentage 40. -/
theorem claim_C6_witness :
    (coverage_fallbacks (JVal.obj c6R) 0).bind
        (dlookup (chars ("coverage_percentage"))) =
      some (JVal.num 40 0) :=
  (claim_C6 c6R 0 10 rfl rfl (Or.inr rfl) rfl).2

end TeleFab
